import Mathlib

/-!
PIE core: page data model, term dictionaries and dictionary distance.

A shallow embedding of `src/Core/PageData.cpp` (namespace `pie`).

Modelling conventions.

* `QString` is a finite sequence of characters, `QVector<T>` / `QStringList` a `List`.
* `QSharedPointer<PageData>` and `QSharedPointer<Region>` are modelled by value: pages and
  regions are never written to after construction.  `Document` objects *are* written to
  through pointers and references (`dictionaryDistance(Document&)`), so the functions that
  take a `Document&` work on a `Heap` of documents addressed by pointer; the receiver and
  the argument may be the same address.
* `QMap<QString,int>` is an association list kept in ascending key order.
* Container sizes and word counts are `Nat` / `Int` without wrap-around: they are bounded
  by the size of the containers holding the data, which Qt indexes with `int`.
* `dictionaryDistance` computes in `float`.  `Document.dictionaryDistance` keeps the three
  accumulators as exact integers and returns the final quotient symbolically (`Score`);
  its value is read over the reals by `Score.Denotes`, without rounding.
  `Document.dictionaryDistanceFloat` is the same method with the rounding of `float` and
  `double` (IEEE 754, round to nearest, ties to even) at every operation.
-/

namespace pie

/-! ## Qt value types -/

/-- A `QString`: the sequence of its characters. -/
abbrev QString := List Char

/-- The test `QChar::isSpace`, which is what `\s` matches in a `QRegExp`: the ASCII
white space U+0009..U+000D, U+0020, then U+0085, U+00A0 and the Unicode separator
categories Zs, Zl, Zp.  The results below use of this set only that U+0020 is in it. -/
def QChar.isSpace (c : Char) : Bool :=
  let u := c.toNat
  u == 0x20 || (0x09 ≤ u && u ≤ 0x0d) || u == 0x85 || u == 0xa0 || u == 0x1680
    || (0x2000 ≤ u && u ≤ 0x200a) || u == 0x2028 || u == 0x2029 || u == 0x202f
    || u == 0x205f || u == 0x3000

/-- The order `operator<` of `QString`: lexicographic on the character codes. -/
def QString.lt : QString → QString → Bool
  | [], [] => false
  | [], _ :: _ => true
  | _ :: _, [] => false
  | a :: as, b :: bs =>
    if a.toNat < b.toNat then true
    else if b.toNat < a.toNat then false
    else QString.lt as bs

/-- Scanner behind `QString::split(QRegExp("\\s+"), QString::SkipEmptyParts)`: `cur` holds
(reversed) the characters read since the last separator; a white-space character ends the
current part, which is emitted unless it is empty. -/
def splitAux : QString → QString → List QString
  | [], cur => if cur.isEmpty then [] else [cur.reverse]
  | c :: cs, cur =>
    if QChar.isSpace c then
      if cur.isEmpty then splitAux cs [] else cur.reverse :: splitAux cs []
    else splitAux cs (c :: cur)

/-- The call `text.split(QRegExp("\\s+"), QString::SkipEmptyParts)`. -/
def QString.splitWords (text : QString) : List QString :=
  splitAux text []

/-- A `QMap<QString,int>`: its entries in ascending key order. -/
abbrev QMap := List (QString × Int)

/-- Method `QMap::isEmpty`. -/
def QMap.isEmpty (m : QMap) : Bool := List.isEmpty m

/-- Method `QMap::contains`. -/
def QMap.contains (m : QMap) (k : QString) : Bool :=
  List.any m (fun e => e.1 == k)

/-- Method `QMap::value(key)`: the value stored under `key`, a default-constructed `int` (0)
when there is none. -/
def QMap.value : QMap → QString → Int
  | [], _ => 0
  | e :: rest, k => if e.1 = k then e.2 else QMap.value rest k

/-- Node creation of `QMap`: a new entry goes in front of the first greater key. -/
def QMap.insertNode (k : QString) (v : Int) : QMap → QMap
  | [] => [(k, v)]
  | e :: rest =>
    if QString.lt k e.1 then (k, v) :: e :: rest
    else e :: QMap.insertNode k v rest

/-- The map after the non-const `operator[]` was applied to `k`: when `k` has no entry,
one with the default value 0 is created. -/
def QMap.index (m : QMap) (k : QString) : QMap :=
  if QMap.contains m k then m else QMap.insertNode k 0 m

/-- Assignment through the reference returned by `operator[]`: replaces the value of
an existing key. -/
def QMap.assign (m : QMap) (k : QString) (v : Int) : QMap :=
  List.map (fun e => if e.1 = k then (e.1, v) else e) m

/-- The statement `m[k]++`. -/
def QMap.increment (m : QMap) (k : QString) : QMap :=
  let m1 := QMap.index m k
  QMap.assign m1 k (QMap.value m1 k + 1)

/-- The keys of a map, in iteration order. -/
def QMap.keys (m : QMap) : List QString := List.map Prod.fst m

/-- A `QSize`. -/
structure QSize where
  wd : Int
  ht : Int
deriving DecidableEq, Repr

/-- A `QColor` (red, green, blue, alpha). -/
structure QColor where
  r : Nat
  g : Nat
  b : Nat
  a : Nat
deriving DecidableEq, Repr

/-! ## The entity hierarchy -/

/-- Class `Region`. -/
structure Region where
  mType : Int
  mSize : QSize
deriving DecidableEq, Repr

/-- Class `ImageData`. -/
structure ImageData where
  mFileName : QString
  mSize : QSize
deriving DecidableEq, Repr

/-- Class `PageData`. -/
structure PageData where
  mXmlFilePath : QString
  mContent : QString
  mCollectionName : QString
  mDocumentName : QString
  mImg : ImageData
  mRegions : List Region
deriving DecidableEq, Repr

/-- Method `PageData::text`. -/
def PageData.text (p : PageData) : QString := p.mContent

/-- Method `PageData::numRegions`. -/
def PageData.numRegions (p : PageData) : Nat := p.mRegions.length

/-- Class `Document`, with the members it gets from `BaseCollection`. -/
structure Document where
  mName : QString
  mColor : Option QColor
  mSelected : Bool
  mPages : List PageData
  mDictionary : QMap
deriving DecidableEq, Repr

/-- Method `Document::isEmpty`. -/
def Document.isEmpty (d : Document) : Bool := d.mPages.isEmpty

/-- Method `Document::numPages`. -/
def Document.numPages (d : Document) : Nat := d.mPages.length

/-- Method `Document::pages`. -/
def Document.pages (d : Document) : List PageData := d.mPages

/-- The first loop of `Document::createDictionary`: every page's text, each followed
by one blank. -/
def Document.allText (pages : List PageData) : QString :=
  pages.foldl (fun text page => text ++ page.text ++ [' ']) []

/-- The second loop of `Document::createDictionary`: `mDictionary[word]++` for every word. -/
def countWords (dict : QMap) (words : List QString) : QMap :=
  words.foldl QMap.increment dict

/-- Method `Document::createDictionary`. -/
def Document.createDictionary (d : Document) : Document :=
  let text := Document.allText d.mPages
  let words := QString.splitWords text
  { d with mDictionary := countWords d.mDictionary words }

/-- Method `Document::dictionary`: the returned map and the document afterwards. -/
def Document.dictionary (d : Document) : QMap × Document :=
  let d1 := if QMap.isEmpty d.mDictionary then d.createDictionary else d
  (d1.mDictionary, d1)

/-- The dictionary that `createDictionary` builds on an empty cache. -/
def Document.builtDictionary (pages : List PageData) : QMap :=
  countWords [] (QString.splitWords (Document.allText pages))

/-- Class invariant of `Document`: the cache `mDictionary` is empty or holds the
dictionary built from `mPages`. -/
def Document.Inv (d : Document) : Prop :=
  d.mDictionary = [] ∨ d.mDictionary = Document.builtDictionary d.mPages

instance (d : Document) : Decidable (Document.Inv d) := by
  unfold Document.Inv; infer_instance

/-- The heap of `Document` objects: the object at each address. -/
abbrev Heap := Nat → Document

/-- Writing the object at address `p`. -/
def Heap.set (σ : Heap) (p : Nat) (d : Document) : Heap :=
  fun q => if q = p then d else σ q

/-- The `float` returned by `dictionaryDistance`: the literal `-1`, or the quotient
`sumAB / (qSqrt(sumASqrd) + qSqrt(sumBSqrd))` of the three accumulators. -/
inductive Score where
  | minusOne
  | quotient (sumAB sumASqrd sumBSqrd : Int)
deriving DecidableEq, Repr

/-- The value of a `Score` over the reals. -/
def Score.Denotes : Score → ℝ → Prop
  | Score.minusOne, x => x = -1
  | Score.quotient sumAB sumASqrd sumBSqrd, x =>
    x = (sumAB : ℝ) / (Real.sqrt (sumASqrd : ℝ) + Real.sqrt (sumBSqrd : ℝ))

/-- The variables of the loop of `dictionaryDistance`: the accumulators and the local
copy `docDict`, which `operator[]` writes to. -/
structure DistanceLoop where
  sumAB : Int
  sumASqrd : Int
  sumBSqrd : Int
  docDict : QMap
deriving DecidableEq, Repr

/-- One pass of the `while (d.hasNext())` loop, at the entry `e` of the iterator. -/
def distanceStep (s : DistanceLoop) (e : QString × Int) : DistanceLoop :=
  let a := e.2
  let docDict := QMap.index s.docDict e.1
  let b := QMap.value docDict e.1
  { sumAB := s.sumAB + a * b
    sumASqrd := s.sumASqrd + a * a
    sumBSqrd := s.sumBSqrd + b * b
    docDict := docDict }

/-- The `while (d.hasNext())` loop of `dictionaryDistance`: the iterator `d` runs over the
entries of the receiver's dictionary, the accumulators start at 0. -/
def distanceLoop (d : QMap) (docDict : QMap) : DistanceLoop :=
  d.foldl distanceStep { sumAB := 0, sumASqrd := 0, sumBSqrd := 0, docDict := docDict }

/-- Method `Document::dictionaryDistance`, called on the object at address `this` with a
reference to the object at address `doc`: the returned score and the heap afterwards. -/
def Document.dictionaryDistance (σ : Heap) (this doc : Nat) : Score × Heap :=
  let σ1 := if QMap.isEmpty (σ this).mDictionary
    then Heap.set σ this (σ this).createDictionary else σ
  let d := (σ1 this).mDictionary
  let r := (σ1 doc).dictionary
  let docDict := r.1
  let σ2 := Heap.set σ1 doc r.2
  if QMap.isEmpty (σ2 this).mDictionary || QMap.isEmpty docDict then
    (Score.minusOne, σ2)
  else
    let s := distanceLoop d docDict
    if s.sumASqrd == 0 && s.sumBSqrd == 0 then (Score.minusOne, σ2)
    else (Score.quotient s.sumAB s.sumASqrd s.sumBSqrd, σ2)

/-- Class `Collection`, with the members it gets from `BaseCollection`. -/
structure Collection where
  mName : QString
  mColor : Option QColor
  mSelected : Bool
  mDocuments : List Document
deriving DecidableEq, Repr

/-- Method `Collection::isEmpty`. -/
def Collection.isEmpty (c : Collection) : Bool := c.mDocuments.isEmpty

/-- Method `Collection::numPages`. -/
def Collection.numPages (c : Collection) : Nat :=
  c.mDocuments.foldl (fun s d => s + d.numPages) 0

/-- Method `Collection::numDocuments`. -/
def Collection.numDocuments (c : Collection) : Nat := c.mDocuments.length

/-- Method `Collection::pages`. -/
def Collection.pages (c : Collection) : List PageData :=
  c.mDocuments.foldl (fun ps d => ps ++ d.pages) []

/-- Method `Collection::documents`. -/
def Collection.documents (c : Collection) : List Document := c.mDocuments

/-- The position in `pages()` at which the pages of the `i`-th document start: the
number of pages of the documents before it. -/
def Collection.offset (c : Collection) (i : Nat) : Nat :=
  ((c.documents.take i).map Document.numPages).sum

/-! ## The specification's vocabulary -/

/-- The page texts joined with single spaces. -/
def specJoinedText (pages : List PageData) : QString :=
  List.intercalate [' '] (pages.map PageData.text)

/-- The white-space delimited, non-empty tokens of a text. -/
def specTokens (text : QString) : List QString :=
  (List.splitOnP QChar.isSpace text).filter (fun t => !t.isEmpty)

/-- The sum of `f w` over the words `w` of a dictionary. -/
def sumOverWords (dict : QMap) (f : QString → Int) : Int :=
  ((QMap.keys dict).map f).sum

/-- The number of occurrences of `w` among the tokens of the joined page texts. -/
def specWordCount (pages : List PageData) (w : QString) : Nat :=
  List.count w (specTokens (specJoinedText pages))

/-- The three exits of `dictionaryDistance` as a function of the two dictionaries that
`dictionary()` returns for the receiver and for the argument. -/
def scoreOf (a b : QMap) : Score :=
  if QMap.isEmpty a || QMap.isEmpty b then Score.minusOne
  else if (distanceLoop a b).sumASqrd == 0 && (distanceLoop a b).sumBSqrd == 0 then
    Score.minusOne
  else Score.quotient (distanceLoop a b).sumAB (distanceLoop a b).sumASqrd
    (distanceLoop a b).sumBSqrd

/-- A page that carries nothing but its text. -/
def PageData.ofText (t : String) : PageData :=
  { mXmlFilePath := [], mContent := t.toList, mCollectionName := [], mDocumentName := [],
    mImg := { mFileName := [], mSize := { wd := 0, ht := 0 } }, mRegions := [] }

/-- A document as `Document(name)` leaves it, with the given page texts. -/
def Document.ofTexts (ts : List String) : Document :=
  { mName := [], mColor := none, mSelected := false,
    mPages := ts.map PageData.ofText, mDictionary := [] }

/-- A heap holding the document with text "a b" at address 0 and the document with
text "a" at every other address. -/
def exampleHeap : Heap :=
  fun n => if n = 0 then Document.ofTexts ["a b"] else Document.ofTexts ["a"]

/-- A heap holding a document whose pages carry only white space at address 0 and the
document with text "a" at every other address. -/
def blankHeap : Heap :=
  fun n => if n = 0 then Document.ofTexts ["", " \t\n "] else Document.ofTexts ["a"]

/-- A heap holding the document with text "a b b" at address 0 and the document with
text "c" at every other address. -/
def disjointHeap : Heap :=
  fun n => if n = 0 then Document.ofTexts ["a b b"] else Document.ofTexts ["c"]


/-! ## Ingestion records and the remaining operations -/

/-- A `QJsonValue`.  A JSON number is held as a `double`; it is modelled by the rational
number it denotes. -/
inductive QJsonValue where
  | null
  | bool (b : Bool)
  | double (x : ℚ)
  | string (s : QString)
  | array (xs : List QJsonValue)
  | object (members : List (QString × QJsonValue))
  | undefined

/-- A `QJsonObject`: its members. -/
abbrev QJsonObject := List (QString × QJsonValue)

/-- A `QJsonArray`: its elements. -/
abbrev QJsonArray := List QJsonValue

/-- Method `QJsonObject::value(key)` (and the const `operator[]`): the member stored
under `key`, `QJsonValue::Undefined` when there is none. -/
def QJsonObject.value : QJsonObject → QString → QJsonValue
  | [], _ => QJsonValue.undefined
  | m :: rest, key => if m.1 = key then m.2 else QJsonObject.value rest key

/-- Method `QJsonObject::contains`. -/
def QJsonObject.contains (jo : QJsonObject) (key : QString) : Bool :=
  List.any jo (fun m => m.1 == key)

/-- Method `QJsonValue::toInt(defaultValue)`: the number when the value is a number that
is integral and fits an `int`, the default otherwise. -/
def QJsonValue.toInt (v : QJsonValue) (defaultValue : Int) : Int :=
  match v with
  | QJsonValue.double x =>
    if x.den = 1 ∧ -2147483648 ≤ x.num ∧ x.num ≤ 2147483647 then x.num else defaultValue
  | _ => defaultValue

/-- Method `QJsonValue::toString()`: the string, a null `QString` when the value is not a
string. -/
def QJsonValue.toString (v : QJsonValue) : QString :=
  match v with
  | QJsonValue.string s => s
  | _ => []

/-- Method `QJsonValue::toArray()`: the array, an empty one when the value is not an
array. -/
def QJsonValue.toArray (v : QJsonValue) : QJsonArray :=
  match v with
  | QJsonValue.array xs => xs
  | _ => []

/-- Method `QJsonValue::toObject()`: the object, an empty one when the value is not an
object. -/
def QJsonValue.toObject (v : QJsonValue) : QJsonObject :=
  match v with
  | QJsonValue.object members => members
  | _ => []

/-- A record value that is a number with an integral value. -/
def QJsonValue.isInteger : QJsonValue → Bool
  | QJsonValue.double x => decide (x.den = 1)
  | _ => false

/-- The value of an `int` expression whose mathematical result is `x`: reduced to the
32-bit two's-complement range. -/
def wrapInt32 (x : Int) : Int :=
  (x + 2147483648) % 4294967296 - 2147483648

/-- The constructor `Region::Region(type, s)`. -/
def Region.init (type : Int) (s : QSize) : Region :=
  { mType := type, mSize := s }

/-- Method `Region::size`. -/
def Region.size (r : Region) : QSize := r.mSize

/-- Method `Region::area`: the `int` product `mSize.width()*mSize.height()`, converted to
`double` on return. -/
def Region.area (r : Region) : Int :=
  wrapInt32 (r.mSize.wd * r.mSize.ht)

/-- Method `Region::width`. -/
def Region.width (r : Region) : Int := r.mSize.wd

/-- Method `Region::height`. -/
def Region.height (r : Region) : Int := r.mSize.ht

/-- The static `Region::fromJson`. -/
def Region.fromJson (jo : QJsonObject) : Region :=
  let mType := (QJsonObject.value jo "type".toList).toInt 0
  let w := (QJsonObject.value jo "width".toList).toInt 0
  let h := (QJsonObject.value jo "height".toList).toInt 0
  { mType := mType, mSize := { wd := w, ht := h } }

/-- The static `ImageData::fromJson`. -/
def ImageData.fromJson (jo : QJsonObject) : ImageData :=
  let mFileName := (QJsonObject.value jo "imgName".toList).toString
  let w := (QJsonObject.value jo "width".toList).toInt 0
  let h := (QJsonObject.value jo "height".toList).toInt 0
  { mFileName := mFileName, mSize := { wd := w, ht := h } }

/-- Method `ImageData::name`. -/
def ImageData.name (i : ImageData) : QString := i.mFileName

/-- Method `PageData::regions`. -/
def PageData.regions (p : PageData) : List Region := p.mRegions

/-- Method `PageData::name`. -/
def PageData.name (p : PageData) : QString := p.mImg.name

/-- Method `PageData::collectionName`. -/
def PageData.collectionName (p : PageData) : QString := p.mCollectionName

/-- Method `PageData::image`. -/
def PageData.image (p : PageData) : ImageData := p.mImg

/-- The static `PageData::fromJson`. -/
def PageData.fromJson (jo : QJsonObject) : PageData :=
  let regions := (QJsonObject.value jo "regions".toList).toArray
  { mXmlFilePath := (QJsonObject.value jo "xmlName".toList).toString
    mContent := (QJsonObject.value jo "content".toList).toString
    mCollectionName := (QJsonObject.value jo "collection".toList).toString
    mDocumentName := (QJsonObject.value jo "document".toList).toString
    mImg := ImageData.fromJson jo
    mRegions := regions.foldl (fun rs r => rs ++ [Region.fromJson r.toObject]) [] }

/-- Modelled from the spec: `Math::statMoment` is declared in `Algorithm.h`, which is not
among the sources.  The spec describes `statMoment(values, 0.5)` as the median
(50th-percentile statistical moment) of the values and leaves the empty sequence open
(treat as 0).  The model sorts the values and takes the element at the nearest rank
`ceil(n * momentValue)`; on an even number of values it takes the mean of that element and
the next, which at 0.5 is the usual median. -/
def Math.statMoment (values : List ℚ) (momentValue : ℚ) : ℚ :=
  let sorted := values.insertionSort (fun a b => a ≤ b)
  let n := sorted.length
  let rank := (Int.ceil ((n : ℚ) * momentValue)).toNat
  if n = 0 then 0
  else if n % 2 = 0 ∧ rank < n then (sorted.getD (rank - 1) 0 + sorted.getD rank 0) / 2
  else sorted.getD (rank - 1) 0

/-- Method `PageData::averageRegion`. -/
def PageData.averageRegion (p : PageData) (prop : Region → ℚ) : ℚ :=
  let sizes := p.regions.foldl (fun sizes r => sizes ++ [prop r]) []
  Math.statMoment sizes (1 / 2)

/-- Method `BaseCollection::setSelected`, on a `Document`. -/
def Document.setSelected (d : Document) (selected : Bool) : Document :=
  { d with mSelected := selected }

/-- Method `BaseCollection::setColor`, on a `Document`. -/
def Document.setColor (d : Document) (col : QColor) : Document :=
  { d with mColor := some col }

/-- The constructor `Document::Document(name)`. -/
def Document.init (name : QString) : Document :=
  { mName := name, mColor := none, mSelected := false, mPages := [], mDictionary := [] }

/-- The static `Document::fromJson`.  The palette lookup `ColorManager::color`, whose
default alpha is declared in `Utils.h` and which goes through `QColor::lighter` and
`QColor::darker`, is the parameter `color`. -/
def Document.fromJson (color : Nat → QColor) (jo : QJsonObject) : Document :=
  let d := Document.init (QJsonObject.value jo "name".toList).toString
  let entities := (QJsonObject.value jo "pages".toList).toArray
  let d1 := entities.foldl
    (fun d p => { d with mPages := d.mPages ++ [PageData.fromJson p.toObject] }) d
  d1.setColor (color d1.numPages)

/-- The constructor `Collection::Collection(name)`. -/
def Collection.init (name : QString) : Collection :=
  { mName := name, mColor := none, mSelected := false, mDocuments := [] }

/-- The static `Collection::fromJson`, with the palette lookup as for
`Document.fromJson`. -/
def Collection.fromJson (color : Nat → QColor) (jo : QJsonObject) (name : QString) :
    Collection :=
  let c := Collection.init name
  let entities := (QJsonObject.value jo "documents".toList).toArray
  entities.foldl
    (fun c p => { c with mDocuments := c.mDocuments ++ [Document.fromJson color p.toObject] })
    c

/-- Method `Collection::selectAll`: `setSelected` on every document of `documents()`. -/
def Collection.selectAll (c : Collection) (selected : Bool) : Collection :=
  { c with mDocuments := c.documents.map (fun p => p.setSelected selected) }

/-- Method `Collection::numRegions`. -/
def Collection.numRegions (c : Collection) : Nat :=
  c.pages.foldl (fun nr p => nr + p.numRegions) 0

/-- Method `Collection::numTextPages`. -/
def Collection.numTextPages (c : Collection) : Nat :=
  c.pages.foldl (fun ntp p => if !p.text.isEmpty then ntp + 1 else ntp) 0

/-- The operations on `Document` objects that a client can issue. -/
inductive DocOp where
  | dictionary (this : Nat)
  | dictionaryDistance (this doc : Nat)
  | setSelected (this : Nat) (selected : Bool)
  | setColor (this : Nat) (col : QColor)

/-- The heap after one operation. -/
def DocOp.run (σ : Heap) : DocOp → Heap
  | DocOp.dictionary this => Heap.set σ this (σ this).dictionary.2
  | DocOp.dictionaryDistance this doc => (Document.dictionaryDistance σ this doc).2
  | DocOp.setSelected this selected => Heap.set σ this ((σ this).setSelected selected)
  | DocOp.setColor this col => Heap.set σ this ((σ this).setColor col)

/-- The heap after a sequence of operations. -/
def runOps (σ : Heap) (ops : List DocOp) : Heap :=
  ops.foldl DocOp.run σ

/-! ## Numbers as text, polygons, the timer and the summary -/

/-- The decimal digits of `n`, most significant first, by repeated division by 10;
`fuel` bounds the number of digits. -/
def decimalDigits : Nat → Nat → List Char
  | 0, _ => []
  | fuel + 1, n =>
    if n < 10 then [Nat.digitChar n]
    else decimalDigits fuel (n / 10) ++ [Nat.digitChar (n % 10)]

/-- The static `QString::number(int)`: the decimal digits, after a minus sign when the
number is negative. -/
def QString.number (n : Int) : QString :=
  if n < 0 then '-' :: decimalDigits (n.natAbs + 1) n.natAbs
  else decimalDigits (n.natAbs + 1) n.natAbs

/-- Method `QString::trimmed`: without the white space at both ends. -/
def QString.trimmed (s : QString) : QString :=
  ((s.dropWhile QChar.isSpace).reverse.dropWhile QChar.isSpace).reverse

/-- The value of a sequence of decimal digits read after the value `acc`; nothing when a
character is not a digit. -/
def parseDecimal : List Char → Nat → Option Nat
  | [], acc => some acc
  | c :: cs, acc =>
    if c.isDigit then parseDecimal cs (acc * 10 + (c.toNat - 48)) else none

/-- Method `QString::toInt(&ok)` in base 10: white space at the ends is skipped, a sign
may precede the digits, and the value has to fit an `int`; the result is nothing when
`ok` is set to false. -/
def QString.toInt (s : QString) : Option Int :=
  let t := QString.trimmed s
  let neg := t.head? == some '-'
  let ds := if t.head? == some '-' || t.head? == some '+' then t.tail else t
  if ds.isEmpty then none
  else
    match parseDecimal ds 0 with
    | none => none
    | some n =>
      let v : Int := if neg then -(n : Int) else (n : Int)
      if -2147483648 ≤ v ∧ v ≤ 2147483647 then some v else none

/-- Method `QString::split(sep)` with a one-character separator, empty parts kept. -/
def QString.split (s : QString) (sep : Char) : List QString :=
  List.splitOn sep s

/-- Method `QString::remove(position, n)`: a negative position counts from the end, a
position outside the string leaves it as it is, and a range that reaches the end
truncates. -/
def QString.remove (s : QString) (position n : Int) : QString :=
  let pos := if position < 0 then position + (s.length : Int) else position
  if pos < 0 ∨ (s.length : Int) ≤ pos then s
  else if (s.length : Int) - pos ≤ n then s.take pos.toNat
  else if 0 < n then s.take pos.toNat ++ s.drop (pos.toNat + n.toNat)
  else s

/-- The call `QString("%1").arg(a, fieldWidth, 10, fillChar)`: the number, padded on the
left to the field width. -/
def QString.argPadded (a : Int) (fieldWidth : Nat) (fillChar : Char) : QString :=
  List.replicate (fieldWidth - (QString.number a).length) fillChar ++ QString.number a

/-- A `QPoint`. -/
structure QPoint where
  xp : Int
  yp : Int
deriving DecidableEq, Repr

/-- A `QPolygon`: its points. -/
abbrev QPolygon := List QPoint

/-- One pass of the loop of `Converter::stringToPoly`, at the part `pair`. -/
def stringToPolyStep (poly : QPolygon) (pair : QString) : QPolygon :=
  let points := QString.split pair ','
  if points.length ≠ 2 then poly
  else
    match QString.toInt (points.getD 0 []), QString.toInt (points.getD 1 []) with
    | some x, some y => poly ++ [{ xp := x, yp := y }]
    | _, _ => poly

/-- The static `Converter::stringToPoly`. -/
def Converter.stringToPoly (pointList : QString) : QPolygon :=
  let pairs := QString.split pointList ' '
  pairs.foldl stringToPolyStep []

/-- The static `Converter::polyToString`. -/
def Converter.polyToString (polygon : QPolygon) : QString :=
  let polyStr := polygon.foldl
    (fun polyStr p => polyStr ++ (QString.number p.xp ++ [','] ++ QString.number p.yp ++ [' ']))
    []
  QString.remove polyStr ((polyStr.length : Int) - 1) 1

/-- The expression `qRound(n / d)` for `n` at least 0 and `d` positive, where `qRound(x)`
is `int(x + 0.5)`: the quotient rounded to the nearest integer, halves upwards. -/
def qRoundDiv (n d : Int) : Int :=
  (2 * n + d) / (2 * d)

/-- Method `Timer::stringifyTime`. -/
def Timer.stringifyTime (ct : Int) : QString :=
  if ct < 1000 then QString.number ct ++ " ms".toList
  else
    let v := qRoundDiv ct 1000
    let ms := Int.tmod ct 1000
    let sec := Int.tmod v 60
    let v1 := qRoundDiv v 60
    let min := Int.tmod v1 60
    let v2 := qRoundDiv v1 60
    let h := Int.tmod v2 24
    let v3 := qRoundDiv v2 24
    let d := v3
    let mss := QString.argPadded ms 3 '0'
    let secs := QString.number sec
    if ct < 10000 then secs ++ ".".toList ++ mss ++ " sec".toList
    else if ct < 60000 then secs ++ " sec".toList
    else
      let ds := QString.argPadded d 2 '0'
      let hs := QString.argPadded h 2 '0'
      let mins := QString.argPadded min 2 '0'
      let secs2 := QString.argPadded sec 2 '0'
      if ct < 3600000 then mins ++ ":".toList ++ secs2
      else if d = 0 then hs ++ ":".toList ++ mins ++ ":".toList ++ secs2
      else ds ++ "days ".toList ++ hs ++ ":".toList ++ mins ++ ":".toList ++ secs2

/-- The result of a `double` division of two integers: not a number for 0 / 0, an
infinity for a non-zero numerator over 0, the quotient otherwise. -/
inductive DoubleQuotient where
  | nan
  | inf (negative : Bool)
  | finite (q : ℚ)

/-- The expression `(double)a / b` for integers `a` and `b`. -/
def divDouble (a b : Int) : DoubleQuotient :=
  if b = 0 then (if a = 0 then DoubleQuotient.nan else DoubleQuotient.inf (decide (a < 0)))
  else DoubleQuotient.finite ((a : ℚ) / (b : ℚ))

/-- Method `Collection::toString`.  The rendering `QString::number(double)` of the
quotient is the parameter `numberDouble`. -/
def Collection.toString (numberDouble : DoubleQuotient → QString) (c : Collection) :
    QString :=
  let nr := c.numRegions
  let nt := c.numTextPages
  let msg : QString := []
  let msg := msg ++ (QString.number c.numPages ++ " pages found in ".toList
    ++ QString.number c.numDocuments ++ " documents\n".toList)
  let msg := msg ++ (QString.number c.numDocuments ++ " documents\n".toList)
  let msg := msg ++ (QString.number nr ++ " regions (".toList
    ++ numberDouble (divDouble nr c.numPages) ++ " per page)\n".toList)
  let msg := msg ++ (QString.number nt ++ " pages with text".toList)
  msg

/-- The characters that `QString::number` writes for the digits. -/
def IsDigitChar (c : Char) : Prop := ∃ d, d < 10 ∧ c = Nat.digitChar d

/-- The PAGE rendering of one point: "x,y". -/
def specPointText (p : QPoint) : QString :=
  QString.number p.xp ++ [','] ++ QString.number p.yp

/-- A coordinate that an `int` can hold. -/
def FitsInt32 (n : Int) : Prop := -2147483648 ≤ n ∧ n ≤ 2147483647

instance (n : Int) : Decidable (FitsInt32 n) := by
  unfold FitsInt32; infer_instance

/-- A heap holding at every address the document with text "w w w". -/
def tripleHeap : Heap :=
  fun _ => Document.ofTexts ["w w w"]

/-! ## The arithmetic of `float` and `double` -/

/-- A finite binary floating-point number, `mant * 2 ^ exp`. -/
structure FloatValue where
  mant : Int
  exp : Int
deriving DecidableEq, Repr

/-- The real number that a floating-point number stands for. -/
def FloatValue.Denotes (f : FloatValue) (x : ℝ) : Prop :=
  x = (f.mant : ℝ) * (2 : ℝ) ^ f.exp

/-- The number of binary digits of `n` (0 for 0); `fuel` bounds the number of digits. -/
def bitLength : Nat → Nat → Nat
  | 0, _ => 0
  | fuel + 1, n => if n = 0 then 0 else bitLength fuel (n / 2) + 1

/-- The integer square root by binary digits: the bits `i - 1, ..., 0` are tried from
the top and kept while the square stays at most `n`. -/
def isqrtAux : Nat → Nat → Nat → Nat
  | 0, _, r => r
  | i + 1, n, r => isqrtAux i n (if (r + 2 ^ i) * (r + 2 ^ i) ≤ n then r + 2 ^ i else r)

/-- The integer square root: the greatest `r` with `r * r ≤ n`. -/
def isqrt (n : Nat) : Nat :=
  isqrtAux (bitLength n n / 2 + 1) n 0

/-- IEEE 754 rounding to nearest, ties to even, of the quantity `(q + f) * 2 ^ e` to `p`
significant bits, where `0 ≤ f < 1` and `sticky` tells whether `f` is not 0 (then `q`
has to have more than `p` bits).  The exponent range is not bounded: the numbers of
`dictionaryDistance` stay within the normal range of `float` and `double`. -/
def roundBits (p : Nat) (q : Nat) (sticky : Bool) (e : Int) : FloatValue :=
  let k := bitLength q q - p
  if k = 0 then { mant := q, exp := e }
  else
    let m := q / 2 ^ k
    let rest := q % 2 ^ k
    let half := 2 ^ (k - 1)
    if half < rest ∨ (rest = half ∧ (sticky = true ∨ m % 2 = 1)) then
      { mant := (m : Int) + 1, exp := e + k }
    else { mant := m, exp := e + k }

/-- Rounding of a signed quantity: the sign is kept, the magnitude rounded. -/
def roundSigned (p : Nat) (m : Int) (sticky : Bool) (e : Int) : FloatValue :=
  let r := roundBits p m.natAbs sticky e
  if m < 0 then { mant := -r.mant, exp := r.exp } else r

/-- The conversion of an `int` to a floating-point number of `p` bits (24 for `float`). -/
def floatOfInt (p : Nat) (n : Int) : FloatValue :=
  roundSigned p n false 0

/-- The conversion of a floating-point number to `p` bits (`double` to `float`). -/
def floatCast (p : Nat) (a : FloatValue) : FloatValue :=
  roundSigned p a.mant false a.exp

/-- The sum of two floating-point numbers, rounded to `p` bits. -/
def floatAdd (p : Nat) (a b : FloatValue) : FloatValue :=
  let e := min a.exp b.exp
  roundSigned p (a.mant * 2 ^ (a.exp - e).toNat + b.mant * 2 ^ (b.exp - e).toNat) false e

/-- The product of two floating-point numbers, rounded to `p` bits. -/
def floatMul (p : Nat) (a b : FloatValue) : FloatValue :=
  roundSigned p (a.mant * b.mant) false (a.exp + b.exp)

/-- The quotient of two floating-point numbers, rounded to `p` bits: the dividend is
shifted until the integer quotient has at least `p + 2` bits, the remainder is the sticky
bit.  A zero divisor does not occur in `dictionaryDistance`, whose second exit excludes
it; the model gives 0 there. -/
def floatDiv (p : Nat) (a b : FloatValue) : FloatValue :=
  let n := a.mant.natAbs
  let d := b.mant.natAbs
  let s := ((p : Int) + 2 + bitLength d d - bitLength n n).toNat
  let q := n * 2 ^ s / d
  let sticky := decide (n * 2 ^ s % d ≠ 0)
  let r := roundBits p q sticky (a.exp - b.exp - s)
  if (a.mant < 0) = (b.mant < 0) then r else { mant := -r.mant, exp := r.exp }

/-- The square root of a floating-point number, rounded to `p` bits: the mantissa is
shifted by an amount that makes the exponent even and leaves an integer square root of
at least `p + 2` bits.  A negative argument does not occur in `dictionaryDistance` (the
arguments are sums of squares); the model gives 0 there. -/
def floatSqrt (p : Nat) (a : FloatValue) : FloatValue :=
  if a.mant ≤ 0 then { mant := 0, exp := 0 }
  else
    let t := 2 * (p + 2) + (a.exp % 2).toNat
    let big := a.mant.toNat * 2 ^ t
    let r := isqrt big
    roundBits p r (decide (r * r ≠ big)) ((a.exp - t) / 2)

/-- The variables of the loop of `dictionaryDistance` as the `float` values they are. -/
structure FloatDistanceLoop where
  sumAB : FloatValue
  sumASqrd : FloatValue
  sumBSqrd : FloatValue
  docDict : QMap
deriving DecidableEq, Repr

/-- One pass of the `while (d.hasNext())` loop in `float` arithmetic: the counts are
converted to `float`, every product and every sum is rounded to `float`. -/
def floatDistanceStep (s : FloatDistanceLoop) (e : QString × Int) : FloatDistanceLoop :=
  let a := floatOfInt 24 e.2
  let docDict := QMap.index s.docDict e.1
  let b := floatOfInt 24 (QMap.value docDict e.1)
  { sumAB := floatAdd 24 s.sumAB (floatMul 24 a b)
    sumASqrd := floatAdd 24 s.sumASqrd (floatMul 24 a a)
    sumBSqrd := floatAdd 24 s.sumBSqrd (floatMul 24 b b)
    docDict := docDict }

/-- The `while (d.hasNext())` loop of `dictionaryDistance` in `float` arithmetic. -/
def floatDistanceLoop (d : QMap) (docDict : QMap) : FloatDistanceLoop :=
  d.foldl floatDistanceStep
    { sumAB := { mant := 0, exp := 0 }, sumASqrd := { mant := 0, exp := 0 },
      sumBSqrd := { mant := 0, exp := 0 }, docDict := docDict }

/-- Method `Document::dictionaryDistance` with the arithmetic of the machine: the
accumulators are `float`, `qSqrt` takes and returns `double`, the sum of the two roots is
a `double` that is cast to `float`, and the quotient is a `float`.  The returned `float`
and the heap afterwards. -/
def Document.dictionaryDistanceFloat (σ : Heap) (this doc : Nat) : FloatValue × Heap :=
  let σ1 := if QMap.isEmpty (σ this).mDictionary
    then Heap.set σ this (σ this).createDictionary else σ
  let d := (σ1 this).mDictionary
  let r := (σ1 doc).dictionary
  let docDict := r.1
  let σ2 := Heap.set σ1 doc r.2
  if QMap.isEmpty (σ2 this).mDictionary || QMap.isEmpty docDict then
    (floatOfInt 24 (-1), σ2)
  else
    let s := floatDistanceLoop d docDict
    if s.sumASqrd.mant == 0 && s.sumBSqrd.mant == 0 then (floatOfInt 24 (-1), σ2)
    else
      (floatDiv 24 s.sumAB
        (floatCast 24 (floatAdd 53 (floatSqrt 53 s.sumASqrd) (floatSqrt 53 s.sumBSqrd))), σ2)

/-- A text of `n` times the word "w", each followed by a blank. -/
def manyWords (n : Nat) : QString :=
  (List.replicate n ['w', ' ']).flatten

/-- The document of one page whose text is 16777216 times the word "w", after its
dictionary was built. -/
def bigDocument : Document :=
  { mName := [], mColor := none, mSelected := false
    mPages := [{ mXmlFilePath := [], mContent := manyWords 16777216, mCollectionName := []
                 mDocumentName := []
                 mImg := { mFileName := [], mSize := { wd := 0, ht := 0 } }, mRegions := [] }]
    mDictionary := [("w".toList, 16777216)] }

/-- A heap holding the document with text "w" at address 0 and `bigDocument` at every
other address. -/
def bigHeap : Heap :=
  fun n => if n = 0 then Document.ofTexts ["w"] else bigDocument

/-- A heap holding at every address the document with text "a b a". -/
def abaHeap : Heap :=
  fun _ => Document.ofTexts ["a b a"]

/-- The keys of a map ascend in the order of `QString`. -/
def QMap.SortedKeys (m : QMap) : Prop :=
  List.Pairwise (fun a b => QString.lt a b = true) (QMap.keys m)

/-- The page list `qs` is `ps` with two adjacent pages merged into one page whose text
is the two texts joined by a blank. -/
def MergedPages (ps qs : List PageData) : Prop :=
  ∃ (front back : List PageData) (p1 p2 m : PageData),
    ps = front ++ [p1, p2] ++ back ∧ qs = front ++ [m] ++ back ∧
    m.text = p1.text ++ [' '] ++ p2.text

/-- A region of the given width and height. -/
def Region.ofSize (w h : Int) : Region :=
  Region.init 0 { wd := w, ht := h }

/-- A page that carries nothing but regions of the given widths (and height 1). -/
def PageData.ofWidths (ws : List Int) : PageData :=
  { mXmlFilePath := [], mContent := [], mCollectionName := [], mDocumentName := [],
    mImg := { mFileName := [], mSize := { wd := 0, ht := 0 } },
    mRegions := ws.map (fun w => Region.ofSize w 1) }

/-- The record of a document with one page of text "a b a". -/
def exampleRecord : QJsonObject :=
  [("name".toList, QJsonValue.string "d".toList),
   ("pages".toList, QJsonValue.array
      [QJsonValue.object [("content".toList, QJsonValue.string "a b a".toList)]])]

/-- A palette that gives every index the same colour. -/
def plainColor : Nat → QColor :=
  fun _ => { r := 115, g := 0, b := 93, a := 255 }

/-- A heap holding at every address the document parsed from `exampleRecord`. -/
def parsedHeap : Heap :=
  fun _ => Document.fromJson plainColor exampleRecord

/-- A sequence of operations that uses the document at address 0 as receiver, as
argument and as both. -/
def exampleOps : List DocOp :=
  [DocOp.dictionaryDistance 0 0, DocOp.dictionary 0, DocOp.dictionaryDistance 0 1,
   DocOp.setSelected 1 true, DocOp.dictionaryDistance 1 0, DocOp.setColor 0 (plainColor 3),
   DocOp.dictionary 1]

/-! ## Facts about `QMap` -/

theorem QMap.contains_iff (m : QMap) (k : QString) :
    QMap.contains m k = true ↔ k ∈ QMap.keys m := by
  induction m with
  | nil => simp [QMap.contains, QMap.keys]
  | cons e rest ih =>
    simp only [QMap.contains, QMap.keys, List.any_cons, Bool.or_eq_true, beq_iff_eq,
      List.map_cons, List.mem_cons] at ih ⊢
    rw [ih]
    constructor
    · rintro (h | h)
      · exact Or.inl h.symm
      · exact Or.inr h
    · rintro (h | h)
      · exact Or.inl h.symm
      · exact Or.inr h

theorem QMap.value_of_not_mem (m : QMap) (k : QString) (h : k ∉ QMap.keys m) :
    QMap.value m k = 0 := by
  induction m with
  | nil => rfl
  | cons e rest ih =>
    simp only [QMap.keys, List.map_cons, List.mem_cons, not_or] at h
    have h1 : ¬ e.1 = k := fun h2 => h.1 h2.symm
    simp only [QMap.value, h1, if_false]
    exact ih h.2

theorem QMap.keys_insertNode_perm (k : QString) (v : Int) (m : QMap) :
    List.Perm (QMap.keys (QMap.insertNode k v m)) (k :: QMap.keys m) := by
  induction m with
  | nil => simp [QMap.insertNode, QMap.keys]
  | cons e rest ih =>
    unfold QMap.insertNode
    split
    · simp [QMap.keys]
    · simp only [QMap.keys, List.map_cons] at ih ⊢
      exact (List.Perm.cons e.1 ih).trans (List.Perm.swap k e.1 _)

theorem QMap.value_insertNode (k : QString) (v : Int) (m : QMap) (k' : QString)
    (h : k ∉ QMap.keys m) :
    QMap.value (QMap.insertNode k v m) k' = if k = k' then v else QMap.value m k' := by
  induction m with
  | nil => simp [QMap.insertNode, QMap.value]
  | cons e rest ih =>
    simp only [QMap.keys, List.map_cons, List.mem_cons, not_or] at h
    unfold QMap.insertNode
    split
    · simp [QMap.value]
    · simp only [QMap.value]
      rw [ih h.2]
      by_cases h1 : e.1 = k'
      · have h2 : ¬ k = k' := fun h3 => h.1 (h3.trans h1.symm)
        simp [h1, h2]
      · simp [h1]

theorem QMap.keys_assign (m : QMap) (k : QString) (v : Int) :
    QMap.keys (QMap.assign m k v) = QMap.keys m := by
  induction m with
  | nil => rfl
  | cons e rest ih =>
    simp only [QMap.keys, QMap.assign, List.map_cons] at ih ⊢
    rw [ih]
    by_cases h : e.1 = k <;> simp [h]

theorem QMap.value_assign (m : QMap) (k : QString) (v : Int) (k' : QString) :
    QMap.value (QMap.assign m k v) k' =
      if k = k' ∧ k ∈ QMap.keys m then v else QMap.value m k' := by
  induction m with
  | nil => simp [QMap.assign, QMap.value, QMap.keys]
  | cons e rest ih =>
    simp only [QMap.assign, QMap.keys, List.map_cons, List.mem_cons] at ih ⊢
    by_cases h : e.1 = k
    · by_cases h1 : k = k'
      · subst h1; simp [QMap.value, h]
      · have h2 : ¬ e.1 = k' := fun h3 => h1 (h.symm.trans h3)
        simp only [h, if_true, QMap.value, h1, false_and, if_false]
        rw [ih]; simp [h1, h ▸ h2]
    · have h0 : ¬ k = e.1 := fun h3 => h h3.symm
      simp only [h, if_false, QMap.value, h0, false_or]
      rw [ih]
      by_cases h1 : e.1 = k'
      · have h2 : ¬ k = k' := fun h3 => h (h1.trans h3.symm)
        simp [h1, h2]
      · simp [h1]

theorem QMap.keys_index_perm (m : QMap) (k : QString) :
    List.Perm (QMap.keys (QMap.index m k))
      (if k ∈ QMap.keys m then QMap.keys m else k :: QMap.keys m) := by
  unfold QMap.index
  by_cases h : k ∈ QMap.keys m
  · simp [(QMap.contains_iff m k).2 h, h]
  · have h1 : ¬ QMap.contains m k = true := fun h2 => h ((QMap.contains_iff m k).1 h2)
    simp only [h1, h, if_false]
    exact QMap.keys_insertNode_perm k 0 m

theorem QMap.mem_keys_index (m : QMap) (k k' : QString) :
    k' ∈ QMap.keys (QMap.index m k) ↔ k' = k ∨ k' ∈ QMap.keys m := by
  rw [(QMap.keys_index_perm m k).mem_iff]
  by_cases h : k ∈ QMap.keys m
  · simp only [h, if_true]
    constructor
    · exact Or.inr
    · rintro (h1 | h1)
      · exact h1 ▸ h
      · exact h1
  · simp [h]

theorem QMap.value_index (m : QMap) (k k' : QString) :
    QMap.value (QMap.index m k) k' = QMap.value m k' := by
  unfold QMap.index
  by_cases h : k ∈ QMap.keys m
  · simp [(QMap.contains_iff m k).2 h]
  · have h1 : ¬ QMap.contains m k = true := fun h2 => h ((QMap.contains_iff m k).1 h2)
    rw [if_neg h1, QMap.value_insertNode k 0 m k' h]
    by_cases h2 : k = k'
    · subst h2; simp [QMap.value_of_not_mem m k h]
    · simp [h2]

theorem QMap.nodup_keys_index (m : QMap) (k : QString) (h : (QMap.keys m).Nodup) :
    (QMap.keys (QMap.index m k)).Nodup := by
  rw [(QMap.keys_index_perm m k).nodup_iff]
  by_cases h1 : k ∈ QMap.keys m
  · simpa [h1] using h
  · simp only [h1, if_false]
    exact List.nodup_cons.2 ⟨h1, h⟩

theorem QMap.mem_keys_increment (m : QMap) (k k' : QString) :
    k' ∈ QMap.keys (QMap.increment m k) ↔ k' = k ∨ k' ∈ QMap.keys m := by
  unfold QMap.increment
  simp only [QMap.keys_assign]
  exact QMap.mem_keys_index m k k'

theorem QMap.nodup_keys_increment (m : QMap) (k : QString) (h : (QMap.keys m).Nodup) :
    (QMap.keys (QMap.increment m k)).Nodup := by
  unfold QMap.increment
  simp only [QMap.keys_assign]
  exact QMap.nodup_keys_index m k h

theorem QMap.value_increment (m : QMap) (k k' : QString) :
    QMap.value (QMap.increment m k) k' = QMap.value m k' + (if k = k' then 1 else 0) := by
  unfold QMap.increment
  simp only [QMap.value_assign, QMap.value_index]
  have hk : k ∈ QMap.keys (QMap.index m k) := (QMap.mem_keys_index m k k).2 (Or.inl rfl)
  by_cases h : k = k'
  · subst h; simp [hk]
  · simp [h]


/-! ## Splitting into words -/

theorem splitAux_eq (s cur : QString) :
    splitAux s cur =
      ((List.splitOnP QChar.isSpace s).modifyHead (fun t => cur.reverse ++ t)).filter
        (fun t => !t.isEmpty) := by
  induction s generalizing cur with
  | nil =>
    cases cur with
    | nil => simp [splitAux, List.splitOnP_nil]
    | cons c cs => simp [splitAux, List.splitOnP_nil]
  | cons c cs ih =>
    rw [List.splitOnP_cons]
    by_cases hc : QChar.isSpace c = true
    · have h0 := ih []
      simp only [List.reverse_nil, List.nil_append] at h0
      have hid : (fun t : List Char => t) = id := rfl
      rw [hid, List.modifyHead_id, id] at h0
      cases cur with
      | nil => simp [splitAux, hc, h0]
      | cons a as => simp [splitAux, hc, h0]
    · simp only [splitAux, hc, if_false, Bool.false_eq_true]
      rw [ih (c :: cur), List.modifyHead_modifyHead]
      congr 2
      funext t
      simp

theorem splitAux_append_space (s cur : QString) :
    splitAux (s ++ [' ']) cur = splitAux s cur := by
  induction s generalizing cur with
  | nil =>
    have h : QChar.isSpace ' ' = true := by decide
    cases cur <;> simp [splitAux, h]
  | cons c cs ih =>
    rw [List.cons_append]
    simp only [splitAux]
    rw [ih [], ih (c :: cur)]

theorem splitWords_eq_specTokens (s : QString) :
    QString.splitWords s = specTokens s := by
  unfold QString.splitWords specTokens
  rw [splitAux_eq]
  have hid : (fun t : List Char => ([] : List Char).reverse ++ t) = id := by
    funext t; simp
  rw [hid, List.modifyHead_id, id]

theorem allText_foldl (acc : QString) (pages : List PageData) :
    pages.foldl (fun text page => text ++ page.text ++ [' ']) acc =
      acc ++ Document.allText pages := by
  unfold Document.allText
  induction pages generalizing acc with
  | nil => simp
  | cons p ps ih =>
    simp only [List.foldl_cons, List.nil_append]
    rw [ih (acc ++ p.text ++ [' ']), ih (p.text ++ [' '])]
    simp

theorem allText_cons (p : PageData) (ps : List PageData) :
    Document.allText (p :: ps) = p.text ++ [' '] ++ Document.allText ps := by
  show (p :: ps).foldl _ [] = _
  rw [List.foldl_cons, allText_foldl]
  simp

theorem allText_eq_joined (p : PageData) (ps : List PageData) :
    Document.allText (p :: ps) = specJoinedText (p :: ps) ++ [' '] := by
  induction ps generalizing p with
  | nil => simp [allText_cons, Document.allText, specJoinedText, List.intercalate]
  | cons q qs ih =>
    rw [allText_cons, ih q]
    simp [specJoinedText, List.intercalate]

theorem splitWords_allText (pages : List PageData) :
    QString.splitWords (Document.allText pages) = specTokens (specJoinedText pages) := by
  cases pages with
  | nil => rfl
  | cons p ps =>
    rw [allText_eq_joined, ← splitWords_eq_specTokens]
    exact splitAux_append_space _ _

/-! ## Counting words -/

theorem value_countWords (m : QMap) (ws : List QString) (w : QString) :
    QMap.value (countWords m ws) w = QMap.value m w + (List.count w ws : Int) := by
  unfold countWords
  induction ws generalizing m with
  | nil => simp
  | cons x xs ih =>
    rw [List.foldl_cons, ih, QMap.value_increment, List.count_cons]
    by_cases h : x = w
    · subst h; simp; ring
    · have h1 : ¬ (x == w) = true := by simpa using h
      simp [h, h1]

theorem mem_keys_countWords (m : QMap) (ws : List QString) (w : QString) :
    w ∈ QMap.keys (countWords m ws) ↔ w ∈ QMap.keys m ∨ w ∈ ws := by
  unfold countWords
  induction ws generalizing m with
  | nil => simp
  | cons x xs ih =>
    rw [List.foldl_cons, ih, QMap.mem_keys_increment, List.mem_cons]
    tauto

theorem nodup_keys_countWords (m : QMap) (ws : List QString) (h : (QMap.keys m).Nodup) :
    (QMap.keys (countWords m ws)).Nodup := by
  unfold countWords
  induction ws generalizing m with
  | nil => simpa using h
  | cons x xs ih =>
    rw [List.foldl_cons]
    exact ih _ (QMap.nodup_keys_increment m x h)


/-! ## The memoised dictionary -/

theorem QMap.isEmpty_iff (m : QMap) : QMap.isEmpty m = true ↔ m = [] := by
  cases m <;> simp [QMap.isEmpty]

theorem QMap.value_of_mem (m : QMap) (h : (QMap.keys m).Nodup) (e : QString × Int)
    (he : e ∈ m) : QMap.value m e.1 = e.2 := by
  induction m with
  | nil => cases he
  | cons x xs ih =>
    simp only [QMap.keys, List.map_cons, List.nodup_cons] at h
    rcases List.mem_cons.1 he with h1 | h1
    · subst h1; simp [QMap.value]
    · have h2 : ¬ x.1 = e.1 := by
        intro h3
        exact h.1 (h3 ▸ List.mem_map_of_mem Prod.fst h1)
      simp only [QMap.value, h2, if_false]
      exact ih h.2 h1

theorem createDictionary_of_empty (d : Document) (h : d.mDictionary = []) :
    d.createDictionary = { d with mDictionary := Document.builtDictionary d.mPages } := by
  unfold Document.createDictionary Document.builtDictionary
  rw [h]

theorem dictionary_snd_mDictionary (d : Document) :
    d.dictionary.2.mDictionary = d.dictionary.1 := rfl

theorem dictionary_snd_mPages (d : Document) : d.dictionary.2.mPages = d.mPages := by
  unfold Document.dictionary
  by_cases h : QMap.isEmpty d.mDictionary = true
  · simp [h, Document.createDictionary]
  · simp [h]

theorem dictionary_idem (d : Document) : d.dictionary.2.dictionary = d.dictionary := by
  by_cases h : QMap.isEmpty d.mDictionary = true
  · have h0 : d.mDictionary = [] := (QMap.isEmpty_iff _).1 h
    have h1 : d.dictionary = (Document.builtDictionary d.mPages,
        { d with mDictionary := Document.builtDictionary d.mPages }) := by
      unfold Document.dictionary
      simp only [h, if_true]
      rw [createDictionary_of_empty d h0]
    rw [h1]
    unfold Document.dictionary
    by_cases h2 : QMap.isEmpty (Document.builtDictionary d.mPages) = true
    · have h3 : Document.builtDictionary d.mPages = [] := (QMap.isEmpty_iff _).1 h2
      simp only [h2, if_true]
      rw [createDictionary_of_empty _ h3]
    · simp only [h2, if_false, Bool.false_eq_true]
  · unfold Document.dictionary
    simp only [h, if_false, Bool.false_eq_true]

theorem dictionary_fst_of_inv (d : Document) (h : d.Inv) :
    d.dictionary.1 = Document.builtDictionary d.mPages := by
  unfold Document.dictionary
  by_cases h1 : QMap.isEmpty d.mDictionary = true
  · have h0 : d.mDictionary = [] := (QMap.isEmpty_iff _).1 h1
    simp only [h1, if_true]
    rw [createDictionary_of_empty d h0]
  · simp only [h1, if_false, Bool.false_eq_true]
    rcases h with h | h
    · exact absurd ((QMap.isEmpty_iff _).2 h) h1
    · exact h

theorem value_builtDictionary (pages : List PageData) (w : QString) :
    QMap.value (Document.builtDictionary pages) w = (specWordCount pages w : Int) := by
  unfold Document.builtDictionary specWordCount
  rw [value_countWords, splitWords_allText]
  simp [QMap.value]

theorem mem_keys_builtDictionary (pages : List PageData) (w : QString) :
    w ∈ QMap.keys (Document.builtDictionary pages) ↔ 0 < specWordCount pages w := by
  unfold Document.builtDictionary specWordCount
  rw [mem_keys_countWords, splitWords_allText, List.count_pos_iff]
  simp [QMap.keys]

theorem nodup_keys_builtDictionary (pages : List PageData) :
    (QMap.keys (Document.builtDictionary pages)).Nodup :=
  nodup_keys_countWords [] _ (by simp [QMap.keys])


/-! ## The distance loop -/

theorem foldl_distanceStep (l : QMap) (s : DistanceLoop) :
    (l.foldl distanceStep s).sumAB =
        s.sumAB + (l.map (fun e => e.2 * QMap.value s.docDict e.1)).sum ∧
    (l.foldl distanceStep s).sumASqrd = s.sumASqrd + (l.map (fun e => e.2 * e.2)).sum ∧
    (l.foldl distanceStep s).sumBSqrd =
        s.sumBSqrd +
          (l.map (fun e => QMap.value s.docDict e.1 * QMap.value s.docDict e.1)).sum ∧
    ∀ k, QMap.value (l.foldl distanceStep s).docDict k = QMap.value s.docDict k := by
  induction l generalizing s with
  | nil => simp
  | cons e es ih =>
    obtain ⟨h1, h2, h3, h4⟩ := ih (distanceStep s e)
    rw [List.foldl_cons]
    refine ⟨?_, ?_, ?_, ?_⟩
    · rw [h1]
      simp only [distanceStep, QMap.value_index, List.map_cons, List.sum_cons]
      ring
    · rw [h2]
      simp only [distanceStep, List.map_cons, List.sum_cons]
      ring
    · rw [h3]
      simp only [distanceStep, QMap.value_index, List.map_cons, List.sum_cons]
      ring
    · intro k
      rw [h4 k]
      simp only [distanceStep, QMap.value_index]

theorem distanceLoop_sumAB (a b : QMap) :
    (distanceLoop a b).sumAB = (a.map (fun e => e.2 * QMap.value b e.1)).sum := by
  have h := (foldl_distanceStep a
    { sumAB := 0, sumASqrd := 0, sumBSqrd := 0, docDict := b }).1
  simpa [distanceLoop] using h

theorem distanceLoop_sumASqrd (a b : QMap) :
    (distanceLoop a b).sumASqrd = (a.map (fun e => e.2 * e.2)).sum := by
  have h := (foldl_distanceStep a
    { sumAB := 0, sumASqrd := 0, sumBSqrd := 0, docDict := b }).2.1
  simpa [distanceLoop] using h

theorem distanceLoop_sumBSqrd (a b : QMap) :
    (distanceLoop a b).sumBSqrd =
      (a.map (fun e => QMap.value b e.1 * QMap.value b e.1)).sum := by
  have h := (foldl_distanceStep a
    { sumAB := 0, sumASqrd := 0, sumBSqrd := 0, docDict := b }).2.2.1
  simpa [distanceLoop] using h

theorem ite_pair_snd {α β : Type} (c1 c2 : Prop) [Decidable c1] [Decidable c2]
    (a b c : α) (x : β) :
    (if c1 then (a, x) else if c2 then (b, x) else (c, x)).2 = x := by
  split_ifs <;> rfl

theorem cacheStep_self (σ : Heap) (this : Nat) :
    (if QMap.isEmpty (σ this).mDictionary = true
      then Heap.set σ this (σ this).createDictionary else σ) this = (σ this).dictionary.2 := by
  unfold Document.dictionary
  by_cases h : QMap.isEmpty (σ this).mDictionary = true
  · simp [h, Heap.set]
  · simp [h]

theorem cacheStep_other (σ : Heap) (this q : Nat) (hq : q ≠ this) :
    (if QMap.isEmpty (σ this).mDictionary = true
      then Heap.set σ this (σ this).createDictionary else σ) q = σ q := by
  by_cases h : QMap.isEmpty (σ this).mDictionary = true
  · simp [h, Heap.set, hq]
  · simp [h]

theorem dictionaryDistance_fst (σ : Heap) (this doc : Nat) :
    (Document.dictionaryDistance σ this doc).1 =
      scoreOf (σ this).dictionary.1 (σ doc).dictionary.1 := by
  have hthis := cacheStep_self σ this
  have hdoc : ((if QMap.isEmpty (σ this).mDictionary = true
      then Heap.set σ this (σ this).createDictionary else σ) doc).dictionary
      = (σ doc).dictionary := by
    by_cases h : doc = this
    · subst h; rw [hthis, dictionary_idem]
    · rw [cacheStep_other σ this doc h]
  have hthis2 : (Heap.set (if QMap.isEmpty (σ this).mDictionary = true
      then Heap.set σ this (σ this).createDictionary else σ) doc
        (σ doc).dictionary.2 this).mDictionary = (σ this).dictionary.1 := by
    by_cases h : this = doc
    · subst h; simp [Heap.set, dictionary_snd_mDictionary]
    · simp only [Heap.set, h, if_false]
      rw [hthis, dictionary_snd_mDictionary]
  unfold Document.dictionaryDistance scoreOf
  simp only [hdoc, hthis2, hthis, dictionary_snd_mDictionary]
  split <;> [rfl; (split <;> rfl)]

theorem dictionaryDistance_snd (σ : Heap) (this doc q : Nat) :
    (Document.dictionaryDistance σ this doc).2 q =
      if q = this ∨ q = doc then (σ q).dictionary.2 else σ q := by
  have hthis := cacheStep_self σ this
  have hdoc : ((if QMap.isEmpty (σ this).mDictionary = true
      then Heap.set σ this (σ this).createDictionary else σ) doc).dictionary
      = (σ doc).dictionary := by
    by_cases h : doc = this
    · subst h; rw [hthis, dictionary_idem]
    · rw [cacheStep_other σ this doc h]
  have h2 : (Document.dictionaryDistance σ this doc).2 =
      Heap.set (if QMap.isEmpty (σ this).mDictionary = true
        then Heap.set σ this (σ this).createDictionary else σ) doc (σ doc).dictionary.2 := by
    unfold Document.dictionaryDistance
    simp only [hdoc]
    exact ite_pair_snd _ _ _ _ _ _
  rw [h2]
  by_cases h3 : q = doc
  · subst h3; simp [Heap.set]
  · by_cases h4 : q = this
    · subst h4; simp only [Heap.set, h3, if_false, true_or, if_true]; exact hthis
    · simp only [Heap.set, h3, if_false, h4, or_self]
      exact cacheStep_other σ this q h4


/-! ## The score -/

theorem sum_entries_eq (a : QMap) (h : (QMap.keys a).Nodup) (f : QString → Int → Int) :
    (a.map (fun e => f e.1 e.2)).sum = sumOverWords a (fun w => f w (QMap.value a w)) := by
  unfold sumOverWords QMap.keys
  rw [List.map_map]
  congr 1
  apply List.map_congr_left
  intro e he
  simp only [Function.comp_apply]
  rw [QMap.value_of_mem a h e he]

theorem entries_pos_of_inv (d : Document) (h : d.Inv) :
    ∀ e ∈ d.dictionary.1, 1 ≤ e.2 := by
  intro e he
  rw [dictionary_fst_of_inv d h] at he
  have h1 := QMap.value_of_mem _ (nodup_keys_builtDictionary d.mPages) e he
  have h2 : e.1 ∈ QMap.keys (Document.builtDictionary d.mPages) :=
    List.mem_map_of_mem Prod.fst he
  rw [mem_keys_builtDictionary] at h2
  rw [value_builtDictionary] at h1
  omega

theorem nodup_keys_of_inv (d : Document) (h : d.Inv) : (QMap.keys d.dictionary.1).Nodup := by
  rw [dictionary_fst_of_inv d h]
  exact nodup_keys_builtDictionary d.mPages

theorem value_nonneg_of_inv (d : Document) (h : d.Inv) (w : QString) :
    0 ≤ QMap.value d.dictionary.1 w := by
  rw [dictionary_fst_of_inv d h, value_builtDictionary]
  exact Int.natCast_nonneg _

theorem sumSq_pos (a : QMap) (hne : a ≠ []) (hpos : ∀ e ∈ a, 1 ≤ e.2) :
    0 < (a.map (fun e => e.2 * e.2)).sum := by
  cases a with
  | nil => exact absurd rfl hne
  | cons e es =>
    have h1 : 1 ≤ e.2 := hpos e (List.mem_cons_self _ _)
    have h2 : 0 ≤ (es.map (fun e => e.2 * e.2)).sum := by
      apply List.sum_nonneg
      intro x hx
      obtain ⟨y, _, rfl⟩ := List.mem_map.1 hx
      exact mul_self_nonneg _
    simp only [List.map_cons, List.sum_cons]
    nlinarith

theorem scoreOf_quotient (a b : QMap) (ha : a ≠ []) (hb : b ≠ [])
    (hpos : ∀ e ∈ a, 1 ≤ e.2) :
    scoreOf a b = Score.quotient (a.map (fun e => e.2 * QMap.value b e.1)).sum
      (a.map (fun e => e.2 * e.2)).sum
      (a.map (fun e => QMap.value b e.1 * QMap.value b e.1)).sum := by
  have h1 : QMap.isEmpty a = false := by
    cases a with
    | nil => exact absurd rfl ha
    | cons _ _ => rfl
  have h2 : QMap.isEmpty b = false := by
    cases b with
    | nil => exact absurd rfl hb
    | cons _ _ => rfl
  have h3 := sumSq_pos a ha hpos
  have h4 : ((distanceLoop a b).sumASqrd == 0) = false := by
    rw [distanceLoop_sumASqrd]
    simp only [beq_eq_false_iff_ne, ne_eq]
    omega
  unfold scoreOf
  simp only [h1, h2, h4, Bool.or_self, Bool.false_and, Bool.false_eq_true, if_false]
  rw [distanceLoop_sumAB, distanceLoop_sumASqrd, distanceLoop_sumBSqrd]

theorem scoreOf_empty (a b : QMap) (h : a = [] ∨ b = []) : scoreOf a b = Score.minusOne := by
  unfold scoreOf
  rcases h with h | h
  · subst h; simp [QMap.isEmpty]
  · subst h; simp [QMap.isEmpty]

theorem sqrt_sum_pos (x y : Int) (hx : 0 < x) :
    0 < Real.sqrt (x : ℝ) + Real.sqrt (y : ℝ) := by
  have h1 : 0 < Real.sqrt (x : ℝ) := Real.sqrt_pos.2 (by exact_mod_cast hx)
  have h2 : 0 ≤ Real.sqrt (y : ℝ) := Real.sqrt_nonneg _
  linarith


/-! ## The claims about the dictionary -/

/-- C1: for a document whose cache satisfies the class invariant, `dictionary()` maps
every word to the number of its occurrences among the white-space delimited, non-empty
tokens of the page texts joined with spaces, its keys are exactly the words that occur,
and no key is listed twice. -/
theorem dictionary_word_counts (d : Document) (h : d.Inv) :
    (∀ w, QMap.value d.dictionary.1 w = (specWordCount d.mPages w : Int)) ∧
    (∀ w, w ∈ QMap.keys d.dictionary.1 ↔ 0 < specWordCount d.mPages w) ∧
    (∀ w c, (w, c) ∈ d.dictionary.1 → c = (specWordCount d.mPages w : Int)) ∧
    (QMap.keys d.dictionary.1).Nodup := by
  have hb := dictionary_fst_of_inv d h
  refine ⟨?_, ?_, ?_, ?_⟩
  · intro w
    rw [hb]; exact value_builtDictionary d.mPages w
  · intro w
    rw [hb]; exact mem_keys_builtDictionary d.mPages w
  · intro w c hm
    rw [hb] at hm
    have h1 := QMap.value_of_mem _ (nodup_keys_builtDictionary d.mPages) (w, c) hm
    rw [value_builtDictionary] at h1
    exact h1.symm
  · rw [hb]; exact nodup_keys_builtDictionary d.mPages

/-- C1 at the pages "a b" and "b c": the dictionary is a:1, b:2, c:1. -/
theorem dictionary_word_counts_witness :
    (Document.ofTexts ["a b", "b c"]).Inv ∧
    (Document.ofTexts ["a b", "b c"]).dictionary.1 =
      [("a".toList, 1), ("b".toList, 2), ("c".toList, 1)] ∧
    (∀ w, QMap.value (Document.ofTexts ["a b", "b c"]).dictionary.1 w =
      (specWordCount (Document.ofTexts ["a b", "b c"]).mPages w : Int)) :=
  ⟨Or.inl rfl, by decide, (dictionary_word_counts _ (Or.inl rfl)).1⟩

/-- C8: `dictionary()` is idempotent: a second call returns the same map as the first and
leaves the document (cache, pages, name, colour, selected) as the first call left it; the
first call itself changes nothing but the cache. -/
theorem dictionary_idempotent (d : Document) :
    d.dictionary.2.dictionary.1 = d.dictionary.1 ∧
    d.dictionary.2.dictionary.2 = d.dictionary.2 ∧
    d.dictionary.2.dictionary.2.mDictionary = d.dictionary.2.mDictionary ∧
    d.dictionary.2.mPages = d.mPages ∧
    d.dictionary.2.mName = d.mName ∧
    d.dictionary.2.mColor = d.mColor ∧
    d.dictionary.2.mSelected = d.mSelected := by
  have h := dictionary_idem d
  refine ⟨by rw [h], by rw [h], by rw [h], dictionary_snd_mPages d, ?_, ?_, ?_⟩
  all_goals
    unfold Document.dictionary
    by_cases h1 : QMap.isEmpty d.mDictionary = true
    · simp [h1, Document.createDictionary]
    · simp [h1]


/-! ## The claims about `dictionaryDistance` -/

theorem sumAB_nonneg (a b : QMap) (ha : ∀ e ∈ a, 1 ≤ e.2) (hb : ∀ w, 0 ≤ QMap.value b w) :
    0 ≤ (a.map (fun e => e.2 * QMap.value b e.1)).sum := by
  apply List.sum_nonneg
  intro x hx
  obtain ⟨e, he, rfl⟩ := List.mem_map.1 hx
  exact mul_nonneg (by have := ha e he; omega) (hb e.1)

theorem sumAB_disjoint (a b : QMap) (h : ∀ w, w ∈ QMap.keys a → w ∉ QMap.keys b) :
    (a.map (fun e => e.2 * QMap.value b e.1)).sum = 0 := by
  apply List.sum_eq_zero
  intro x hx
  obtain ⟨e, he, rfl⟩ := List.mem_map.1 hx
  rw [QMap.value_of_not_mem b e.1 (h e.1 (List.mem_map_of_mem Prod.fst he))]
  ring

theorem denotes_quotient_zero (sa sb : Int) : Score.Denotes (Score.quotient 0 sa sb) 0 := by
  simp [Score.Denotes]

theorem value_dictionary_of_inv (d : Document) (h : d.Inv) (w : QString) :
    QMap.value d.dictionary.1 w = (specWordCount d.mPages w : Int) := by
  rw [dictionary_fst_of_inv d h]
  exact value_builtDictionary d.mPages w

theorem distance_quotient_of_inv (σ : Heap) (this doc : Nat) (hthis : (σ this).Inv)
    (hA : (σ this).dictionary.1 ≠ []) (hB : (σ doc).dictionary.1 ≠ []) :
    (Document.dictionaryDistance σ this doc).1 =
      Score.quotient
        (sumOverWords (σ this).dictionary.1 (fun w =>
          QMap.value (σ this).dictionary.1 w * QMap.value (σ doc).dictionary.1 w))
        (sumOverWords (σ this).dictionary.1 (fun w =>
          QMap.value (σ this).dictionary.1 w * QMap.value (σ this).dictionary.1 w))
        (sumOverWords (σ this).dictionary.1 (fun w =>
          QMap.value (σ doc).dictionary.1 w * QMap.value (σ doc).dictionary.1 w)) := by
  have hnd := nodup_keys_of_inv (σ this) hthis
  have hq := scoreOf_quotient _ _ hA hB (entries_pos_of_inv (σ this) hthis)
  rw [sum_entries_eq _ hnd (fun w a => a * QMap.value (σ doc).dictionary.1 w),
    sum_entries_eq _ hnd (fun _ a => a * a),
    sum_entries_eq _ hnd (fun w _ =>
      QMap.value (σ doc).dictionary.1 w * QMap.value (σ doc).dictionary.1 w)] at hq
  exact (dictionaryDistance_fst σ this doc).trans hq

/-- C2: for two documents with non-empty dictionaries the result is the quotient
`sumAB / (sqrt sumASq + sqrt sumBSq)`, the three sums running over the words `w` of the
receiver's dictionary with `a` the receiver's count of `w` and `b` the argument's count of
`w` (0 when the argument's dictionary has no such word); the counts are the occurrence
counts of the words in the respective page texts. -/
theorem dictionaryDistance_formula (σ : Heap) (this doc : Nat)
    (hthis : (σ this).Inv) (hdoc : (σ doc).Inv)
    (hA : (σ this).dictionary.1 ≠ []) (hB : (σ doc).dictionary.1 ≠ []) :
    (Document.dictionaryDistance σ this doc).1 =
      Score.quotient
        (sumOverWords (σ this).dictionary.1 (fun w =>
          QMap.value (σ this).dictionary.1 w * QMap.value (σ doc).dictionary.1 w))
        (sumOverWords (σ this).dictionary.1 (fun w =>
          QMap.value (σ this).dictionary.1 w * QMap.value (σ this).dictionary.1 w))
        (sumOverWords (σ this).dictionary.1 (fun w =>
          QMap.value (σ doc).dictionary.1 w * QMap.value (σ doc).dictionary.1 w)) ∧
    Score.Denotes (Document.dictionaryDistance σ this doc).1
      ((sumOverWords (σ this).dictionary.1 (fun w =>
          QMap.value (σ this).dictionary.1 w * QMap.value (σ doc).dictionary.1 w) : ℝ) /
        (Real.sqrt (sumOverWords (σ this).dictionary.1 (fun w =>
          QMap.value (σ this).dictionary.1 w * QMap.value (σ this).dictionary.1 w) : ℝ) +
         Real.sqrt (sumOverWords (σ this).dictionary.1 (fun w =>
          QMap.value (σ doc).dictionary.1 w * QMap.value (σ doc).dictionary.1 w) : ℝ))) ∧
    (∀ w, QMap.value (σ this).dictionary.1 w = (specWordCount (σ this).mPages w : Int)) ∧
    (∀ w, QMap.value (σ doc).dictionary.1 w = (specWordCount (σ doc).mPages w : Int)) := by
  have h1 := distance_quotient_of_inv σ this doc hthis hA hB
  refine ⟨h1, ?_, value_dictionary_of_inv _ hthis, value_dictionary_of_inv _ hdoc⟩
  rw [h1]
  simp only [Score.Denotes]

/-- C2 at the documents "a b" (receiver) and "a" (argument): sumAB = 1, sumASq = 2,
sumBSq = 1. -/
theorem dictionaryDistance_formula_witness :
    (exampleHeap 0).Inv ∧ (exampleHeap 1).Inv ∧
    (exampleHeap 0).dictionary.1 ≠ [] ∧ (exampleHeap 1).dictionary.1 ≠ [] ∧
    (Document.dictionaryDistance exampleHeap 0 1).1 = Score.quotient 1 2 1 :=
  ⟨Or.inl rfl, Or.inl rfl, by decide, by decide,
    (dictionaryDistance_formula exampleHeap 0 1 (Or.inl rfl) (Or.inl rfl)
      (by decide) (by decide)).1.trans (by decide)⟩

/-- C3: when `dictionary()` of the receiver or of the argument is empty,
`dictionaryDistance` returns the literal -1. -/
theorem dictionaryDistance_empty (σ : Heap) (this doc : Nat)
    (h : (σ this).dictionary.1 = [] ∨ (σ doc).dictionary.1 = []) :
    (Document.dictionaryDistance σ this doc).1 = Score.minusOne ∧
    Score.Denotes (Document.dictionaryDistance σ this doc).1 (-1) := by
  have h1 := (dictionaryDistance_fst σ this doc).trans (scoreOf_empty _ _ h)
  refine ⟨h1, ?_⟩
  rw [h1]
  simp only [Score.Denotes]

/-- C3 at a receiver whose pages hold only white space, and with that document as the
argument. -/
theorem dictionaryDistance_empty_witness :
    (blankHeap 0).dictionary.1 = [] ∧
    (Document.dictionaryDistance blankHeap 0 1).1 = Score.minusOne ∧
    (Document.dictionaryDistance blankHeap 1 0).1 = Score.minusOne :=
  ⟨by decide, (dictionaryDistance_empty blankHeap 0 1 (Or.inl (by decide))).1,
    (dictionaryDistance_empty blankHeap 1 0 (Or.inr (by decide))).1⟩


/-- C4: for two documents satisfying the class invariant whose dictionaries are both
non-empty, the loop leaves `sumASqrd > 0`, so the test `sumASqrd == 0 && sumBSqrd == 0` of
the second exit is false, the divisor is non-zero and the returned quotient is at least 0;
hence a negative result is returned only when one of the two dictionaries is empty. -/
theorem dictionaryDistance_nonneg (σ : Heap) (this doc : Nat)
    (hthis : (σ this).Inv) (hdoc : (σ doc).Inv) :
    ((σ this).dictionary.1 ≠ [] → (σ doc).dictionary.1 ≠ [] →
      0 < (distanceLoop (σ this).dictionary.1 (σ doc).dictionary.1).sumASqrd ∧
      ((distanceLoop (σ this).dictionary.1 (σ doc).dictionary.1).sumASqrd == 0 &&
        (distanceLoop (σ this).dictionary.1 (σ doc).dictionary.1).sumBSqrd == 0) = false ∧
      Real.sqrt ((distanceLoop (σ this).dictionary.1 (σ doc).dictionary.1).sumASqrd : ℝ) +
        Real.sqrt ((distanceLoop (σ this).dictionary.1 (σ doc).dictionary.1).sumBSqrd : ℝ)
          ≠ 0 ∧
      (Document.dictionaryDistance σ this doc).1 =
        Score.quotient (distanceLoop (σ this).dictionary.1 (σ doc).dictionary.1).sumAB
          (distanceLoop (σ this).dictionary.1 (σ doc).dictionary.1).sumASqrd
          (distanceLoop (σ this).dictionary.1 (σ doc).dictionary.1).sumBSqrd ∧
      ∀ x, Score.Denotes (Document.dictionaryDistance σ this doc).1 x → 0 ≤ x) ∧
    (∀ x, Score.Denotes (Document.dictionaryDistance σ this doc).1 x → x < 0 →
      (σ this).dictionary.1 = [] ∨ (σ doc).dictionary.1 = []) := by
  have key : (σ this).dictionary.1 ≠ [] → (σ doc).dictionary.1 ≠ [] →
      0 < (distanceLoop (σ this).dictionary.1 (σ doc).dictionary.1).sumASqrd ∧
      (Document.dictionaryDistance σ this doc).1 =
        Score.quotient (distanceLoop (σ this).dictionary.1 (σ doc).dictionary.1).sumAB
          (distanceLoop (σ this).dictionary.1 (σ doc).dictionary.1).sumASqrd
          (distanceLoop (σ this).dictionary.1 (σ doc).dictionary.1).sumBSqrd ∧
      ∀ x, Score.Denotes (Document.dictionaryDistance σ this doc).1 x → 0 ≤ x := by
    intro hA hB
    have hpos := entries_pos_of_inv (σ this) hthis
    have h1 : 0 < (distanceLoop (σ this).dictionary.1 (σ doc).dictionary.1).sumASqrd := by
      rw [distanceLoop_sumASqrd]; exact sumSq_pos _ hA hpos
    have h2 : 0 ≤ (distanceLoop (σ this).dictionary.1 (σ doc).dictionary.1).sumAB := by
      rw [distanceLoop_sumAB]
      exact sumAB_nonneg _ _ hpos (value_nonneg_of_inv (σ doc) hdoc)
    have h3 : (Document.dictionaryDistance σ this doc).1 =
        Score.quotient (distanceLoop (σ this).dictionary.1 (σ doc).dictionary.1).sumAB
          (distanceLoop (σ this).dictionary.1 (σ doc).dictionary.1).sumASqrd
          (distanceLoop (σ this).dictionary.1 (σ doc).dictionary.1).sumBSqrd := by
      rw [dictionaryDistance_fst, scoreOf_quotient _ _ hA hB hpos, distanceLoop_sumAB,
        distanceLoop_sumASqrd, distanceLoop_sumBSqrd]
    refine ⟨h1, h3, ?_⟩
    intro x hx
    rw [h3] at hx
    simp only [Score.Denotes] at hx
    rw [hx]
    exact div_nonneg (by exact_mod_cast h2) (le_of_lt (sqrt_sum_pos _ _ h1))
  constructor
  · intro hA hB
    obtain ⟨h1, h3, h4⟩ := key hA hB
    refine ⟨h1, ?_, ne_of_gt (sqrt_sum_pos _ _ h1), h3, h4⟩
    have h5 : ((distanceLoop (σ this).dictionary.1 (σ doc).dictionary.1).sumASqrd == 0)
        = false := by
      simp only [beq_eq_false_iff_ne, ne_eq]
      omega
    rw [h5, Bool.false_and]
  · intro x hx hneg
    by_contra hcon
    rw [not_or] at hcon
    have h4 := (key hcon.1 hcon.2).2.2 x hx
    linarith

/-- C4 at the documents "a b" and "a": the score 1 / (sqrt 2 + sqrt 1) is not negative. -/
theorem dictionaryDistance_nonneg_witness :
    (exampleHeap 0).Inv ∧ (exampleHeap 1).Inv ∧
    (∀ x, Score.Denotes (Document.dictionaryDistance exampleHeap 0 1).1 x → 0 ≤ x) :=
  ⟨Or.inl rfl, Or.inl rfl,
    ((dictionaryDistance_nonneg exampleHeap 0 1 (Or.inl rfl) (Or.inl rfl)).1
      (by decide) (by decide)).2.2.2.2⟩

theorem dictionary_after_distance (σ : Heap) (this doc q : Nat) (h : q = this ∨ q = doc) :
    ((Document.dictionaryDistance σ this doc).2 q).dictionary = (σ q).dictionary := by
  rw [dictionaryDistance_snd, if_pos h, dictionary_idem]

theorem scoreOf_disjoint (a b : QMap) (ha : a ≠ []) (hb : b ≠ [])
    (hpos : ∀ e ∈ a, 1 ≤ e.2) (h : ∀ w, w ∈ QMap.keys a → w ∉ QMap.keys b) :
    Score.Denotes (scoreOf a b) 0 := by
  rw [scoreOf_quotient a b ha hb hpos, sumAB_disjoint a b h]
  exact denotes_quotient_zero _ _

/-- C6: for two documents with non-empty dictionaries that share no word, the distance
is 0 in both directions, whether the second call runs on the original heap or after the
first call. -/
theorem dictionaryDistance_disjoint (σ : Heap) (p q : Nat)
    (hp : (σ p).Inv) (hq : (σ q).Inv)
    (hA : (σ p).dictionary.1 ≠ []) (hB : (σ q).dictionary.1 ≠ [])
    (hdisj : ∀ w, w ∈ QMap.keys (σ p).dictionary.1 → w ∉ QMap.keys (σ q).dictionary.1) :
    Score.Denotes (Document.dictionaryDistance σ p q).1 0 ∧
    Score.Denotes (Document.dictionaryDistance σ q p).1 0 ∧
    Score.Denotes
      (Document.dictionaryDistance (Document.dictionaryDistance σ p q).2 q p).1 0 := by
  have hdisj2 : ∀ w, w ∈ QMap.keys (σ q).dictionary.1 → w ∉ QMap.keys (σ p).dictionary.1 :=
    fun w hw hw2 => hdisj w hw2 hw
  have h1 := scoreOf_disjoint _ _ hA hB (entries_pos_of_inv (σ p) hp) hdisj
  have h2 := scoreOf_disjoint _ _ hB hA (entries_pos_of_inv (σ q) hq) hdisj2
  refine ⟨?_, ?_, ?_⟩
  · rw [dictionaryDistance_fst]; exact h1
  · rw [dictionaryDistance_fst]; exact h2
  · rw [dictionaryDistance_fst, dictionary_after_distance σ p q q (Or.inr rfl),
      dictionary_after_distance σ p q p (Or.inl rfl)]
    exact h2

/-- C6 at the documents "a b b" and "c". -/
theorem dictionaryDistance_disjoint_witness :
    (disjointHeap 0).Inv ∧ (disjointHeap 1).Inv ∧
    (disjointHeap 0).dictionary.1 ≠ [] ∧ (disjointHeap 1).dictionary.1 ≠ [] ∧
    (∀ w, w ∈ QMap.keys (disjointHeap 0).dictionary.1 →
      w ∉ QMap.keys (disjointHeap 1).dictionary.1) ∧
    Score.Denotes (Document.dictionaryDistance disjointHeap 0 1).1 0 ∧
    Score.Denotes (Document.dictionaryDistance disjointHeap 1 0).1 0 ∧
    Score.Denotes
      (Document.dictionaryDistance (Document.dictionaryDistance disjointHeap 0 1).2 1 0).1
      0 :=
  ⟨Or.inl rfl, Or.inl rfl, by decide, by decide, by decide,
    dictionaryDistance_disjoint disjointHeap 0 1 (Or.inl rfl) (Or.inl rfl)
      (by decide) (by decide) (by decide)⟩

/-- C7: `dictionaryDistance` is not symmetric: between the documents "a b" and "a" the
two directions give 1 / (sqrt 2 + sqrt 1) and 1 / (sqrt 1 + sqrt 1), both strictly
positive and different; the same holds when the second call runs after the first. -/
theorem dictionaryDistance_not_symmetric :
    ∃ x y : ℝ,
      Score.Denotes (Document.dictionaryDistance exampleHeap 0 1).1 x ∧
      Score.Denotes (Document.dictionaryDistance exampleHeap 1 0).1 y ∧
      Score.Denotes
        (Document.dictionaryDistance (Document.dictionaryDistance exampleHeap 0 1).2 1 0).1
        y ∧
      0 < x ∧ 0 < y ∧ x ≠ y := by
  have h1 : (Document.dictionaryDistance exampleHeap 0 1).1 = Score.quotient 1 2 1 := by
    decide
  have h2 : (Document.dictionaryDistance exampleHeap 1 0).1 = Score.quotient 1 1 1 := by
    decide
  have h3 : (Document.dictionaryDistance
      (Document.dictionaryDistance exampleHeap 0 1).2 1 0).1 = Score.quotient 1 1 1 := by
    decide
  have hs2 : (1 : ℝ) < Real.sqrt 2 := by
    rw [show (1 : ℝ) = Real.sqrt 1 from Real.sqrt_one.symm]
    exact Real.sqrt_lt_sqrt (by norm_num) (by norm_num)
  refine ⟨1 / (Real.sqrt 2 + Real.sqrt 1), 1 / (Real.sqrt 1 + Real.sqrt 1), ?_, ?_, ?_, ?_,
    ?_, ?_⟩
  · rw [h1]; simp [Score.Denotes]
  · rw [h2]; simp [Score.Denotes]
  · rw [h3]; simp [Score.Denotes]
  · rw [Real.sqrt_one]; positivity
  · rw [Real.sqrt_one]; norm_num
  · rw [Real.sqrt_one]
    intro h
    rw [div_eq_div_iff (by positivity) (by norm_num)] at h
    linarith


/-! ## Collections -/

theorem numPages_foldl (docs : List Document) (s : Nat) :
    docs.foldl (fun s d => s + d.numPages) s = s + (docs.map Document.numPages).sum := by
  induction docs generalizing s with
  | nil => simp
  | cons d ds ih =>
    rw [List.foldl_cons, ih, List.map_cons, List.sum_cons, Nat.add_assoc]

theorem pages_foldl (docs : List Document) (ps : List PageData) :
    docs.foldl (fun ps d => ps ++ d.pages) ps = ps ++ (docs.map Document.pages).flatten := by
  induction docs generalizing ps with
  | nil => simp
  | cons d ds ih =>
    rw [List.foldl_cons, ih, List.map_cons, List.flatten_cons, List.append_assoc]

theorem pages_eq_flatten (c : Collection) :
    c.pages = (c.mDocuments.map Document.pages).flatten := by
  unfold Collection.pages
  rw [pages_foldl, List.nil_append]

theorem numPages_eq_sum (c : Collection) :
    c.numPages = (c.mDocuments.map Document.numPages).sum := by
  unfold Collection.numPages
  rw [numPages_foldl, Nat.zero_add]

theorem length_flatten_pages (docs : List Document) :
    ((docs.map Document.pages).flatten).length = (docs.map Document.numPages).sum := by
  induction docs with
  | nil => rfl
  | cons d ds ih =>
    rw [List.map_cons, List.flatten_cons, List.length_append, ih, List.map_cons,
      List.sum_cons]
    rfl

/-- C9: `numPages()` is the sum of the documents' `numPages()` and the length of
`pages()`, `numDocuments()` is the length of `documents()`; two documents with 3 and 5
pages give 8 pages, 2 documents and 8 flattened pages. -/
theorem collection_counts (c : Collection) :
    c.numPages = (c.documents.map Document.numPages).sum ∧
    c.numPages = c.pages.length ∧
    c.numDocuments = c.documents.length ∧
    (∀ d1 d2, c.documents = [d1, d2] → d1.numPages = 3 → d2.numPages = 5 →
      c.numPages = 8 ∧ c.numDocuments = 2 ∧ c.pages.length = 8) := by
  have h1 := numPages_eq_sum c
  have h2 : c.pages.length = (c.mDocuments.map Document.numPages).sum := by
    rw [pages_eq_flatten, length_flatten_pages]
  refine ⟨h1, by rw [h1, h2], rfl, ?_⟩
  intro d1 d2 hc h3 h5
  have hc2 : c.mDocuments = [d1, d2] := hc
  refine ⟨?_, ?_, ?_⟩
  · rw [h1, hc2]; simp [h3, h5]
  · show c.mDocuments.length = 2
    rw [hc2]; rfl
  · rw [h2, hc2]; simp [h3, h5]


theorem flatten_pages_at (docs : List Document) (i k : Nat) (d : Document) (pg : PageData)
    (hd : docs[i]? = some d) (hk : d.pages[k]? = some pg) :
    ((docs.map Document.pages).flatten)[((docs.take i).map Document.numPages).sum + k]?
      = some pg := by
  induction docs generalizing i with
  | nil => simp at hd
  | cons d0 ds ih =>
    cases i with
    | zero =>
      simp only [List.getElem?_cons_zero, Option.some.injEq] at hd
      subst hd
      have hlt : k < d0.pages.length := by
        by_contra hge
        rw [List.getElem?_eq_none (Nat.le_of_not_lt hge)] at hk
        cases hk
      simp only [List.take_zero, List.map_nil, List.sum_nil, Nat.zero_add, List.map_cons,
        List.flatten_cons]
      rw [List.getElem?_append_left hlt]
      exact hk
    | succ i =>
      simp only [List.getElem?_cons_succ] at hd
      have h := ih i hd
      simp only [List.take_succ_cons, List.map_cons, List.sum_cons, List.flatten_cons]
      have hlen : d0.numPages = d0.pages.length := rfl
      rw [hlen, Nat.add_assoc, List.getElem?_append_right (Nat.le_add_right _ _),
        Nat.add_sub_cancel_left]
      exact h

theorem flatten_pages_from (docs : List Document) (n : Nat) (pg : PageData)
    (h : ((docs.map Document.pages).flatten)[n]? = some pg) :
    ∃ i d k, docs[i]? = some d ∧ d.pages[k]? = some pg ∧
      n = ((docs.take i).map Document.numPages).sum + k := by
  induction docs generalizing n with
  | nil => simp at h
  | cons d0 ds ih =>
    simp only [List.map_cons, List.flatten_cons] at h
    by_cases hlt : n < d0.pages.length
    · rw [List.getElem?_append_left hlt] at h
      exact ⟨0, d0, n, by simp, h, by simp⟩
    · have hge : d0.pages.length ≤ n := Nat.le_of_not_lt hlt
      rw [List.getElem?_append_right hge] at h
      obtain ⟨i, d, k, h1, h2, h3⟩ := ih _ h
      refine ⟨i + 1, d, k, by simpa using h1, h2, ?_⟩
      simp only [List.take_succ_cons, List.map_cons, List.sum_cons]
      have hlen : d0.numPages = d0.pages.length := rfl
      omega

theorem offset_step (docs : List Document) (i j : Nat) (d : Document) (hij : i < j)
    (hd : docs[i]? = some d) (hj : j ≤ docs.length) :
    ((docs.take i).map Document.numPages).sum + d.numPages ≤
      ((docs.take j).map Document.numPages).sum := by
  induction docs generalizing i j with
  | nil => simp at hd
  | cons d0 ds ih =>
    cases j with
    | zero => omega
    | succ j =>
      cases i with
      | zero =>
        simp only [List.getElem?_cons_zero, Option.some.injEq] at hd
        subst hd
        simp
      | succ i =>
        simp only [List.getElem?_cons_succ] at hd
        have h := ih i j (Nat.lt_of_succ_lt_succ hij) hd
          (Nat.le_of_succ_le_succ (by simpa using hj))
        simp only [List.take_succ_cons, List.map_cons, List.sum_cons]
        omega

/-- C10: `pages()` is the concatenation, in document order, of the documents' page
sequences: the `k`-th page of the `i`-th document sits at position `offset i + k`, the
block of document `i` ends before the block of document `j` starts whenever `i < j`,
every position of `pages()` holds a page of some document, and the length is the sum of
the documents' page counts. -/
theorem collection_pages_order (c : Collection) :
    c.pages = (c.documents.map Document.pages).flatten ∧
    (∀ i d k pg, c.documents[i]? = some d → d.pages[k]? = some pg →
      c.pages[c.offset i + k]? = some pg) ∧
    (∀ i j d, i < j → j ≤ c.numDocuments → c.documents[i]? = some d →
      c.offset i + d.numPages ≤ c.offset j) ∧
    (∀ n pg, c.pages[n]? = some pg →
      ∃ i d k, c.documents[i]? = some d ∧ d.pages[k]? = some pg ∧ n = c.offset i + k) ∧
    c.pages.length = (c.documents.map Document.numPages).sum := by
  have h0 := pages_eq_flatten c
  refine ⟨h0, ?_, ?_, ?_, ?_⟩
  · intro i d k pg hd hk
    rw [h0]
    exact flatten_pages_at c.mDocuments i k d pg hd hk
  · intro i j d hij hj hd
    exact offset_step c.mDocuments i j d hij hd hj
  · intro n pg h
    rw [h0] at h
    exact flatten_pages_from c.mDocuments n pg h
  · rw [h0]
    exact length_flatten_pages c.mDocuments

/-! ## Aggregates over the pages of a collection -/

theorem numRegions_foldl (ps : List PageData) (nr : Nat) :
    ps.foldl (fun nr p => nr + p.numRegions) nr = nr + (ps.map PageData.numRegions).sum := by
  induction ps generalizing nr with
  | nil => simp
  | cons p ps ih =>
    rw [List.foldl_cons, ih, List.map_cons, List.sum_cons, Nat.add_assoc]

theorem sum_flatten_regions (docs : List Document) :
    (((docs.map Document.pages).flatten).map PageData.numRegions).sum =
      (docs.map (fun d => (d.pages.map PageData.numRegions).sum)).sum := by
  induction docs with
  | nil => rfl
  | cons d ds ih =>
    simp only [List.map_cons, List.flatten_cons, List.map_append, List.sum_append,
      List.sum_cons]
    rw [ih]

/-- C11: `numRegions()` is the sum of `numRegions()` over the pages of `pages()`, which
is the sum over the documents of the sum over each document's pages. -/
theorem collection_numRegions (c : Collection) :
    c.numRegions = (c.pages.map PageData.numRegions).sum ∧
    c.numRegions =
      (c.documents.map (fun d => (d.pages.map PageData.numRegions).sum)).sum := by
  have h1 : c.numRegions = (c.pages.map PageData.numRegions).sum := by
    unfold Collection.numRegions
    rw [numRegions_foldl, Nat.zero_add]
  refine ⟨h1, ?_⟩
  rw [h1, pages_eq_flatten]
  exact sum_flatten_regions c.mDocuments

theorem numTextPages_foldl (ps : List PageData) (ntp : Nat) :
    ps.foldl (fun ntp p => if !p.text.isEmpty then ntp + 1 else ntp) ntp =
      ntp + ps.countP (fun p => !p.text.isEmpty) := by
  induction ps generalizing ntp with
  | nil => simp
  | cons p ps ih =>
    rw [List.foldl_cons, ih, List.countP_cons]
    by_cases h : (!p.text.isEmpty) = true
    · simp only [h, if_true]; omega
    · simp only [h, if_false]; simp

/-- C12: `numTextPages()` is the number of pages of `pages()` whose text is not the empty
string, so it lies between 0 and `numPages()`; a page whose text is a single blank is
counted, a page with the empty text is not. -/
theorem collection_numTextPages (c : Collection) :
    c.numTextPages = c.pages.countP (fun p => decide (p.text ≠ [])) ∧
    0 ≤ c.numTextPages ∧
    c.numTextPages ≤ c.numPages ∧
    (∀ d : Document, c.documents = [d] →
      d.pages = [PageData.ofText " ", PageData.ofText ""] → c.numTextPages = 1) := by
  have h1 : c.numTextPages = c.pages.countP (fun p => decide (p.text ≠ [])) := by
    unfold Collection.numTextPages
    rw [numTextPages_foldl, Nat.zero_add]
    congr 1
    funext p
    cases h : p.text <;> simp
  have h2 : c.pages.length = c.numPages := by
    rw [pages_eq_flatten, length_flatten_pages, numPages_eq_sum]
  refine ⟨h1, Nat.zero_le _, ?_, ?_⟩
  · rw [h1, ← h2]
    exact List.countP_le_length _
  · intro d hc hd
    have hc2 : c.mDocuments = [d] := hc
    have hd2 : d.mPages = [PageData.ofText " ", PageData.ofText ""] := hd
    rw [h1, pages_eq_flatten, hc2]
    simp only [List.map_cons, List.map_nil, List.flatten_cons, List.flatten_nil,
      List.append_nil, Document.pages, hd2]
    decide

/-! ## Selection -/

/-- C13: after `selectAll(b)` every document has `selected == b`; the documents are as
many as before and in the same order, each keeps its name, colour, pages and cached
dictionary, `pages()` is the same sequence of pages, and the collection keeps its own
name, colour and selected flag. -/
theorem collection_selectAll (c : Collection) (b : Bool) :
    (∀ d ∈ (c.selectAll b).documents, d.mSelected = b) ∧
    (c.selectAll b).numDocuments = c.numDocuments ∧
    (∀ i : Nat, (c.selectAll b).documents[i]? =
      (c.documents[i]?).map (fun d => d.setSelected b)) ∧
    (∀ (i : Nat) (d : Document), c.documents[i]? = some d →
      ∃ e : Document, (c.selectAll b).documents[i]? = some e ∧
      e.mSelected = b ∧ e.mName = d.mName ∧ e.mColor = d.mColor ∧ e.mPages = d.mPages ∧
      e.mDictionary = d.mDictionary) ∧
    (c.selectAll b).pages = c.pages ∧
    (c.selectAll b).mName = c.mName ∧
    (c.selectAll b).mColor = c.mColor ∧
    (c.selectAll b).mSelected = c.mSelected := by
  have hidx : ∀ i : Nat, (c.selectAll b).documents[i]? =
      (c.documents[i]?).map (fun d => d.setSelected b) := by
    intro i
    show (c.mDocuments.map (fun p => p.setSelected b))[i]? = _
    rw [List.getElem?_map]
    rfl
  refine ⟨?_, ?_, hidx, ?_, ?_, rfl, rfl, rfl⟩
  · intro d hd
    have hd2 : d ∈ c.mDocuments.map (fun p => p.setSelected b) := hd
    obtain ⟨e, _, rfl⟩ := List.mem_map.1 hd2
    rfl
  · show (c.mDocuments.map (fun p => p.setSelected b)).length = c.mDocuments.length
    exact List.length_map _ _
  · intro i d hd
    refine ⟨d.setSelected b, ?_, rfl, rfl, rfl, rfl, rfl⟩
    rw [hidx i, hd]
    rfl
  · rw [pages_eq_flatten, pages_eq_flatten]
    show ((c.mDocuments.map (fun p => p.setSelected b)).map Document.pages).flatten = _
    rw [List.map_map]
    rfl

/-! ## Parsing -/

theorem QJsonObject.value_of_not_contains (jo : QJsonObject) (key : QString)
    (h : QJsonObject.contains jo key = false) :
    QJsonObject.value jo key = QJsonValue.undefined := by
  induction jo with
  | nil => rfl
  | cons m rest ih =>
    simp only [QJsonObject.contains, List.any_cons, Bool.or_eq_false_iff,
      beq_eq_false_iff_ne, ne_eq] at h
    simp only [QJsonObject.value, h.1, if_false]
    exact ih h.2

theorem QJsonValue.toInt_of_not_integer (v : QJsonValue) (dflt : Int)
    (h : v.isInteger = false) : v.toInt dflt = dflt := by
  cases v with
  | double x =>
    have h1 : ¬ x.den = 1 := by simpa [QJsonValue.isInteger] using h
    simp [QJsonValue.toInt, h1]
  | _ => rfl

theorem regions_foldl (arr : List QJsonValue) (acc : List Region) :
    arr.foldl (fun rs r => rs ++ [Region.fromJson r.toObject]) acc =
      acc ++ arr.map (fun r => Region.fromJson r.toObject) := by
  induction arr generalizing acc with
  | nil => simp
  | cons r rs ih => rw [List.foldl_cons, ih]; simp

theorem pageData_regions_eq (jo : QJsonObject) :
    (PageData.fromJson jo).mRegions =
      ((QJsonObject.value jo "regions".toList).toArray).map
        (fun r => Region.fromJson r.toObject) := by
  unfold PageData.fromJson
  simp only [regions_foldl, List.nil_append]

theorem document_pages_foldl (arr : List QJsonValue) (d : Document) :
    arr.foldl (fun d p => { d with mPages := d.mPages ++ [PageData.fromJson p.toObject] }) d
      = { d with mPages := d.mPages ++ arr.map (fun p => PageData.fromJson p.toObject) } := by
  induction arr generalizing d with
  | nil => simp
  | cons r rs ih => rw [List.foldl_cons, ih]; simp

theorem document_fromJson_eq (color : Nat → QColor) (jo : QJsonObject) :
    Document.fromJson color jo =
      { mName := (QJsonObject.value jo "name".toList).toString
        mColor := some (color ((QJsonObject.value jo "pages".toList).toArray).length)
        mSelected := false
        mPages := ((QJsonObject.value jo "pages".toList).toArray).map
          (fun p => PageData.fromJson p.toObject)
        mDictionary := [] } := by
  unfold Document.fromJson
  simp only [document_pages_foldl, Document.init, Document.setColor, Document.numPages,
    List.nil_append, List.length_map]

theorem collection_documents_foldl (color : Nat → QColor) (arr : List QJsonValue)
    (c : Collection) :
    arr.foldl (fun c p =>
        { c with mDocuments := c.mDocuments ++ [Document.fromJson color p.toObject] }) c
      = { c with mDocuments :=
          c.mDocuments ++ arr.map (fun p => Document.fromJson color p.toObject) } := by
  induction arr generalizing c with
  | nil => simp
  | cons r rs ih => rw [List.foldl_cons, ih]; simp

theorem collection_fromJson_eq (color : Nat → QColor) (jo : QJsonObject) (name : QString) :
    Collection.fromJson color jo name =
      { mName := name, mColor := none, mSelected := false
        mDocuments := ((QJsonObject.value jo "documents".toList).toArray).map
          (fun p => Document.fromJson color p.toObject) } := by
  unfold Collection.fromJson
  simp only [collection_documents_foldl, Collection.init, List.nil_append]

/-- C14: parsing is total and keeps the whole tree: `Collection::fromJson` returns one
document per element of the `documents` array (none when the key is absent or its value
is not an array), in array order, the `i`-th being `Document::fromJson` of the `i`-th
element, and of the empty record when that element is not an object; `Document::fromJson`
returns one page per element of `pages`, and the empty name when `name` is absent. -/
theorem collection_fromJson_documents (color : Nat → QColor) (jo : QJsonObject)
    (name : QString) :
    (Collection.fromJson color jo name).numDocuments =
      ((QJsonObject.value jo "documents".toList).toArray).length ∧
    (∀ (i : Nat) (v : QJsonValue),
      ((QJsonObject.value jo "documents".toList).toArray)[i]? = some v →
      (Collection.fromJson color jo name).documents[i]? =
        some (Document.fromJson color v.toObject)) ∧
    (∀ (i : Nat) (v : QJsonValue),
      ((QJsonObject.value jo "documents".toList).toArray)[i]? = some v →
      (∀ members, v ≠ QJsonValue.object members) →
      (Collection.fromJson color jo name).documents[i]? =
        some (Document.fromJson color [])) ∧
    (QJsonObject.contains jo "documents".toList = false →
      (Collection.fromJson color jo name).documents = []) ∧
    ((∀ xs, QJsonObject.value jo "documents".toList ≠ QJsonValue.array xs) →
      (Collection.fromJson color jo name).documents = []) ∧
    (Collection.fromJson color jo name).mName = name ∧
    (∀ dj : QJsonObject,
      (Document.fromJson color dj).numPages =
        ((QJsonObject.value dj "pages".toList).toArray).length ∧
      (∀ (i : Nat) (v : QJsonValue),
        ((QJsonObject.value dj "pages".toList).toArray)[i]? = some v →
        (Document.fromJson color dj).pages[i]? = some (PageData.fromJson v.toObject)) ∧
      (QJsonObject.contains dj "name".toList = false →
        (Document.fromJson color dj).mName = []) ∧
      (∀ n, QJsonObject.value dj "name".toList = QJsonValue.string n →
        (Document.fromJson color dj).mName = n)) := by
  have hc := collection_fromJson_eq color jo name
  have hnotarr : ∀ v : QJsonValue, (∀ xs, v ≠ QJsonValue.array xs) → v.toArray = [] := by
    intro v hv
    cases v with
    | array xs => exact absurd rfl (hv xs)
    | _ => rfl
  have hnotobj : ∀ v : QJsonValue, (∀ ms, v ≠ QJsonValue.object ms) → v.toObject = [] := by
    intro v hv
    cases v with
    | object ms => exact absurd rfl (hv ms)
    | _ => rfl
  refine ⟨?_, ?_, ?_, ?_, ?_, ?_, ?_⟩
  · rw [hc]; simp [Collection.numDocuments]
  · intro i v hv
    rw [hc]
    simp only [Collection.documents, List.getElem?_map, hv, Option.map_some']
  · intro i v hv hobj
    rw [hc]
    simp only [Collection.documents, List.getElem?_map, hv, Option.map_some', hnotobj v hobj]
  · intro h
    rw [hc]
    show List.map _ (QJsonObject.value jo "documents".toList).toArray = []
    rw [QJsonObject.value_of_not_contains jo _ h]
    rfl
  · intro h
    rw [hc]
    show List.map _ (QJsonObject.value jo "documents".toList).toArray = []
    rw [hnotarr _ h]
    rfl
  · rw [hc]
  · intro dj
    have hd := document_fromJson_eq color dj
    refine ⟨?_, ?_, ?_, ?_⟩
    · rw [hd]; simp [Document.numPages]
    · intro i v hv
      rw [hd]
      simp only [Document.pages, List.getElem?_map, hv, Option.map_some']
    · intro h
      rw [hd]
      show (QJsonObject.value dj "name".toList).toString = []
      rw [QJsonObject.value_of_not_contains dj _ h]
      rfl
    · intro n h
      rw [hd]
      show (QJsonObject.value dj "name".toList).toString = n
      rw [h]
      rfl

/-- C15: `PageData::fromJson` returns a page whose `numRegions()` is the length of
`regions()` and the number of elements of the record's `regions` array (0 when the key is
absent), the `i`-th region being `Region::fromJson` of the `i`-th element; text,
collection name and image name are the record's `content`, `collection` and `imgName`
strings, empty when the key is absent. -/
theorem pageData_fromJson_regions (jo : QJsonObject) :
    (PageData.fromJson jo).numRegions = (PageData.fromJson jo).regions.length ∧
    (PageData.fromJson jo).numRegions =
      ((QJsonObject.value jo "regions".toList).toArray).length ∧
    (QJsonObject.contains jo "regions".toList = false →
      (PageData.fromJson jo).numRegions = 0 ∧ (PageData.fromJson jo).regions = []) ∧
    (∀ (i : Nat) (v : QJsonValue),
      ((QJsonObject.value jo "regions".toList).toArray)[i]? = some v →
      (PageData.fromJson jo).regions[i]? = some (Region.fromJson v.toObject)) ∧
    (∀ t, QJsonObject.value jo "content".toList = QJsonValue.string t →
      (PageData.fromJson jo).text = t) ∧
    (QJsonObject.contains jo "content".toList = false → (PageData.fromJson jo).text = []) ∧
    (∀ t, QJsonObject.value jo "collection".toList = QJsonValue.string t →
      (PageData.fromJson jo).collectionName = t) ∧
    (QJsonObject.contains jo "collection".toList = false →
      (PageData.fromJson jo).collectionName = []) ∧
    (∀ t, QJsonObject.value jo "imgName".toList = QJsonValue.string t →
      (PageData.fromJson jo).name = t) ∧
    (QJsonObject.contains jo "imgName".toList = false → (PageData.fromJson jo).name = []) := by
  have hr := pageData_regions_eq jo
  refine ⟨rfl, ?_, ?_, ?_, ?_, ?_, ?_, ?_, ?_, ?_⟩
  · show (PageData.fromJson jo).mRegions.length = _
    rw [hr, List.length_map]
  · intro h
    have h1 : (PageData.fromJson jo).mRegions = [] := by
      rw [hr, QJsonObject.value_of_not_contains jo _ h]; rfl
    exact ⟨by show (PageData.fromJson jo).mRegions.length = 0; rw [h1]; rfl, h1⟩
  · intro i v hv
    show (PageData.fromJson jo).mRegions[i]? = _
    rw [hr]
    simp only [List.getElem?_map, hv, Option.map_some']
  · intro t h
    show (QJsonObject.value jo "content".toList).toString = t
    rw [h]; rfl
  · intro h
    show (QJsonObject.value jo "content".toList).toString = []
    rw [QJsonObject.value_of_not_contains jo _ h]; rfl
  · intro t h
    show (QJsonObject.value jo "collection".toList).toString = t
    rw [h]; rfl
  · intro h
    show (QJsonObject.value jo "collection".toList).toString = []
    rw [QJsonObject.value_of_not_contains jo _ h]; rfl
  · intro t h
    show (QJsonObject.value jo "imgName".toList).toString = t
    rw [h]; rfl
  · intro h
    show (QJsonObject.value jo "imgName".toList).toString = []
    rw [QJsonObject.value_of_not_contains jo _ h]; rfl

/-! ## Regions -/

theorem wrapInt32_zero : wrapInt32 0 = 0 := by decide

theorem wrapInt32_of_fits (x : Int) (h1 : -2147483648 ≤ x) (h2 : x ≤ 2147483647) :
    wrapInt32 x = x := by
  unfold wrapInt32
  omega

theorem QJsonValue.toInt_nonneg (v : QJsonValue) (h : ∀ x, v = QJsonValue.double x → 0 ≤ x) :
    0 ≤ v.toInt 0 := by
  cases v with
  | double x =>
    have hx : 0 ≤ x := h x rfl
    have hn : 0 ≤ x.num := Rat.num_nonneg.2 hx
    unfold QJsonValue.toInt
    simp only
    split
    · exact hn
    · exact le_refl 0
  | _ => exact le_refl 0

/-- C17: a record whose `type`, `width` or `height` is missing or is not an integer gives
the default 0 for that field, whatever the other fields are; a zero width or height
gives `area() == 0`, and the record without any of the three gives type 0, width 0,
height 0 and area 0. -/
theorem region_fromJson_defaults (jo : QJsonObject) :
    ((QJsonObject.value jo "type".toList).isInteger = false →
      (Region.fromJson jo).mType = 0) ∧
    ((QJsonObject.value jo "width".toList).isInteger = false →
      (Region.fromJson jo).width = 0 ∧ (Region.fromJson jo).area = 0) ∧
    ((QJsonObject.value jo "height".toList).isInteger = false →
      (Region.fromJson jo).height = 0 ∧ (Region.fromJson jo).area = 0) ∧
    (QJsonObject.contains jo "type".toList = false →
      (Region.fromJson jo).mType = 0) ∧
    (QJsonObject.contains jo "width".toList = false →
      (Region.fromJson jo).width = 0 ∧ (Region.fromJson jo).area = 0) ∧
    (QJsonObject.contains jo "height".toList = false →
      (Region.fromJson jo).height = 0 ∧ (Region.fromJson jo).area = 0) ∧
    (QJsonObject.contains jo "type".toList = false →
      QJsonObject.contains jo "width".toList = false →
      QJsonObject.contains jo "height".toList = false →
      Region.fromJson jo = { mType := 0, mSize := { wd := 0, ht := 0 } } ∧
      (Region.fromJson jo).area = 0) := by
  have hT : (QJsonObject.value jo "type".toList).isInteger = false →
      (Region.fromJson jo).mType = 0 := fun h =>
    QJsonValue.toInt_of_not_integer _ 0 h
  have hW : (QJsonObject.value jo "width".toList).isInteger = false →
      (Region.fromJson jo).width = 0 ∧ (Region.fromJson jo).area = 0 := by
    intro h
    have h1 : (Region.fromJson jo).mSize.wd = 0 := QJsonValue.toInt_of_not_integer _ 0 h
    refine ⟨h1, ?_⟩
    unfold Region.area
    rw [h1, Int.zero_mul]
    exact wrapInt32_zero
  have hH : (QJsonObject.value jo "height".toList).isInteger = false →
      (Region.fromJson jo).height = 0 ∧ (Region.fromJson jo).area = 0 := by
    intro h
    have h1 : (Region.fromJson jo).mSize.ht = 0 := QJsonValue.toInt_of_not_integer _ 0 h
    refine ⟨h1, ?_⟩
    unfold Region.area
    rw [h1, Int.mul_zero]
    exact wrapInt32_zero
  have hmiss : ∀ key, QJsonObject.contains jo key = false →
      (QJsonObject.value jo key).isInteger = false := by
    intro key h
    rw [QJsonObject.value_of_not_contains jo key h]
    rfl
  refine ⟨hT, hW, hH, fun h => hT (hmiss _ h), fun h => hW (hmiss _ h),
    fun h => hH (hmiss _ h), ?_⟩
  intro h1 h2 h3
  refine ⟨?_, (hW (hmiss _ h2)).2⟩
  unfold Region.fromJson
  simp only
  rw [QJsonValue.toInt_of_not_integer _ 0 (hmiss _ h1),
    QJsonValue.toInt_of_not_integer _ 0 (hmiss _ h2),
    QJsonValue.toInt_of_not_integer _ 0 (hmiss _ h3)]

/-- C18: at the record with width 65536 and height 65536 the `int` product of
`Region::area` leaves the 32-bit range: the parsed extents are 65536 each, `area()` is 0
and not the product 4294967296. -/
theorem region_area_overflow :
    (Region.fromJson [("width".toList, QJsonValue.double 65536),
      ("height".toList, QJsonValue.double 65536)]).width = 65536 ∧
    (Region.fromJson [("width".toList, QJsonValue.double 65536),
      ("height".toList, QJsonValue.double 65536)]).height = 65536 ∧
    (Region.fromJson [("width".toList, QJsonValue.double 65536),
      ("height".toList, QJsonValue.double 65536)]).area = 0 ∧
    (Region.fromJson [("width".toList, QJsonValue.double 65536),
      ("height".toList, QJsonValue.double 65536)]).area ≠ 65536 * 65536 := by
  decide

/-- C19, as stated, fails: the record with width -3 and height 4 is parsed to a region
of width -3, and the constructor keeps a negative size as it is. -/
theorem region_negative_extent :
    (Region.fromJson [("width".toList, QJsonValue.double (-3)),
      ("height".toList, QJsonValue.double 4)]).width = -3 ∧
    ¬ (0 ≤ (Region.fromJson [("width".toList, QJsonValue.double (-3)),
      ("height".toList, QJsonValue.double 4)]).width) ∧
    ¬ (0 ≤ (Region.init 0 { wd := -1, ht := 2 }).width) := by
  decide

/-- C19, amended: `Region::fromJson` does not validate the sign.  Width and height are
the record's `width` and `height` read with `toInt(0)`; they are at least 0 whenever the
record's `width` and `height` are absent, not numbers, or numbers that are at least 0.
The constructor stores the size it is given, so its extents are at least 0 when those of
the argument are. -/
theorem region_extent_nonneg (jo : QJsonObject)
    (hw : ∀ x, QJsonObject.value jo "width".toList = QJsonValue.double x → 0 ≤ x)
    (hh : ∀ x, QJsonObject.value jo "height".toList = QJsonValue.double x → 0 ≤ x) :
    (Region.fromJson jo).width = (QJsonObject.value jo "width".toList).toInt 0 ∧
    (Region.fromJson jo).height = (QJsonObject.value jo "height".toList).toInt 0 ∧
    0 ≤ (Region.fromJson jo).width ∧ 0 ≤ (Region.fromJson jo).height ∧
    (∀ (type : Int) (s : QSize), 0 ≤ s.wd → 0 ≤ s.ht →
      0 ≤ (Region.init type s).width ∧ 0 ≤ (Region.init type s).height) :=
  ⟨rfl, rfl, QJsonValue.toInt_nonneg _ hw, QJsonValue.toInt_nonneg _ hh,
    fun _ _ h1 h2 => ⟨h1, h2⟩⟩

/-- C19, amended, at the record with width 7 and no height. -/
theorem region_extent_nonneg_witness :
    (Region.fromJson [("width".toList, QJsonValue.double 7)]).width = 7 ∧
    (Region.fromJson [("width".toList, QJsonValue.double 7)]).height = 0 ∧
    0 ≤ (Region.fromJson [("width".toList, QJsonValue.double 7)]).width ∧
    0 ≤ (Region.fromJson [("width".toList, QJsonValue.double 7)]).height :=
  ⟨by decide, by decide,
    (region_extent_nonneg [("width".toList, QJsonValue.double 7)]
      (fun x h => by
        have h1 : QJsonValue.double 7 = QJsonValue.double x := h
        injection h1 with h2
        rw [← h2]; norm_num)
      (fun x h => by
        have h1 : QJsonValue.undefined = QJsonValue.double x := h
        cases h1)).2.2.1,
    (region_extent_nonneg [("width".toList, QJsonValue.double 7)]
      (fun x h => by
        have h1 : QJsonValue.double 7 = QJsonValue.double x := h
        injection h1 with h2
        rw [← h2]; norm_num)
      (fun x h => by
        have h1 : QJsonValue.undefined = QJsonValue.double x := h
        cases h1)).2.2.2.1⟩

/-! ## The dictionary cache under sequences of operations -/

theorem inv_dictionary (d : Document) (h : d.Inv) : d.dictionary.2.Inv := by
  right
  rw [dictionary_snd_mDictionary, dictionary_snd_mPages]
  exact dictionary_fst_of_inv d h

theorem inv_fromJson (color : Nat → QColor) (jo : QJsonObject) :
    (Document.fromJson color jo).Inv := by
  left
  rw [document_fromJson_eq]

theorem run_at (σ : Heap) (op : DocOp) (p : Nat) :
    DocOp.run σ op p = σ p ∨ DocOp.run σ op p = (σ p).dictionary.2 ∨
    (∃ b, DocOp.run σ op p = (σ p).setSelected b) ∨
    (∃ col, DocOp.run σ op p = (σ p).setColor col) := by
  cases op with
  | dictionary this =>
    by_cases h : p = this
    · subst h; right; left; simp [DocOp.run, Heap.set]
    · left; simp [DocOp.run, Heap.set, h]
  | dictionaryDistance this doc =>
    have hs : DocOp.run σ (DocOp.dictionaryDistance this doc) p =
        if p = this ∨ p = doc then (σ p).dictionary.2 else σ p :=
      dictionaryDistance_snd σ this doc p
    by_cases h : p = this ∨ p = doc
    · right; left; rw [hs, if_pos h]
    · left; rw [hs, if_neg h]
  | setSelected this b =>
    by_cases h : p = this
    · subst h; right; right; left; exact ⟨b, by simp [DocOp.run, Heap.set]⟩
    · left; simp [DocOp.run, Heap.set, h]
  | setColor this col =>
    by_cases h : p = this
    · subst h; right; right; right; exact ⟨col, by simp [DocOp.run, Heap.set]⟩
    · left; simp [DocOp.run, Heap.set, h]

theorem inv_run (σ : Heap) (op : DocOp) (p : Nat) (h : (σ p).Inv) :
    (DocOp.run σ op p).Inv ∧ (DocOp.run σ op p).mPages = (σ p).mPages := by
  rcases run_at σ op p with h1 | h1 | ⟨b, h1⟩ | ⟨col, h1⟩
  · rw [h1]; exact ⟨h, rfl⟩
  · rw [h1]; exact ⟨inv_dictionary _ h, dictionary_snd_mPages _⟩
  · rw [h1]; exact ⟨h, rfl⟩
  · rw [h1]; exact ⟨h, rfl⟩

theorem inv_runOps (σ : Heap) (ops : List DocOp) (p : Nat) (h : (σ p).Inv) :
    (runOps σ ops p).Inv ∧ (runOps σ ops p).mPages = (σ p).mPages := by
  unfold runOps
  induction ops generalizing σ with
  | nil => exact ⟨h, rfl⟩
  | cons op ops ih =>
    rw [List.foldl_cons]
    have h1 := inv_run σ op p h
    have h2 := ih (DocOp.run σ op) h1.1
    exact ⟨h2.1, h2.2.trans h1.2⟩

/-- C20: start from a heap of documents built by `Document::fromJson` and run any
sequence of `dictionary()`, `dictionaryDistance` (receiver and argument at any addresses,
the same one included), `setSelected` and `setColor`.  Every document then has the pages
it was built with, and its cache is empty or is the dictionary that one build on an empty
cache gives: every word is mapped to its number of occurrences in the page texts, so no
count exceeds it.  A call of `dictionary()` builds only on an empty cache, and
`dictionaryDistance` touches the heap only by `dictionary()` on its two documents. -/
theorem dictionary_cache_invariant (color : Nat → QColor) (σ : Heap)
    (hσ : ∀ p, ∃ jo, σ p = Document.fromJson color jo) (ops : List DocOp) (p : Nat) :
    (runOps σ ops p).mPages = (σ p).mPages ∧
    ((runOps σ ops p).mDictionary = [] ∨
      (runOps σ ops p).mDictionary = Document.builtDictionary (σ p).mPages) ∧
    ((runOps σ ops p).mDictionary = [] ∨
      ((∀ w, QMap.value (runOps σ ops p).mDictionary w =
          (specWordCount (σ p).mPages w : Int)) ∧
       (∀ w, w ∈ QMap.keys (runOps σ ops p).mDictionary ↔ 0 < specWordCount (σ p).mPages w) ∧
       (QMap.keys (runOps σ ops p).mDictionary).Nodup)) ∧
    (∀ w, QMap.value (runOps σ ops p).mDictionary w ≤ (specWordCount (σ p).mPages w : Int)) ∧
    (∀ d : Document, d.dictionary.2 = d ∨
      (d.mDictionary = [] ∧ d.dictionary.2 = d.createDictionary)) ∧
    (∀ (τ : Heap) (this doc q : Nat), (Document.dictionaryDistance τ this doc).2 q =
      if q = this ∨ q = doc then (τ q).dictionary.2 else τ q) := by
  obtain ⟨jo, hjo⟩ := hσ p
  have h0 : (σ p).Inv := by rw [hjo]; exact inv_fromJson color jo
  obtain ⟨hinv, hpages⟩ := inv_runOps σ ops p h0
  have hinv2 : (runOps σ ops p).mDictionary = [] ∨
      (runOps σ ops p).mDictionary = Document.builtDictionary (σ p).mPages := by
    rw [← hpages]; exact hinv
  refine ⟨hpages, hinv2, ?_, ?_, ?_, dictionaryDistance_snd⟩
  · rcases hinv2 with h | h
    · exact Or.inl h
    · right
      rw [h]
      exact ⟨value_builtDictionary _, mem_keys_builtDictionary _, nodup_keys_builtDictionary _⟩
  · intro w
    rcases hinv2 with h | h
    · rw [h]; exact Int.natCast_nonneg _
    · rw [h, value_builtDictionary]
  · intro d
    unfold Document.dictionary
    by_cases h : QMap.isEmpty d.mDictionary = true
    · right
      exact ⟨(QMap.isEmpty_iff _).1 h, by simp [h]⟩
    · left
      simp [h]

/-- C20 at the heap of documents parsed from a record with the text "a b a": after the
example operations the cache at address 0 is a:2, b:1. -/
theorem dictionary_cache_invariant_witness :
    (∀ p, ∃ jo, parsedHeap p = Document.fromJson plainColor jo) ∧
    (runOps parsedHeap exampleOps 0).mDictionary = [("a".toList, 2), ("b".toList, 1)] ∧
    ((runOps parsedHeap exampleOps 0).mDictionary = [] ∨
      (runOps parsedHeap exampleOps 0).mDictionary =
        Document.builtDictionary (parsedHeap 0).mPages) :=
  ⟨fun _ => ⟨exampleRecord, rfl⟩, by decide,
    (dictionary_cache_invariant plainColor parsedHeap (fun _ => ⟨exampleRecord, rfl⟩)
      exampleOps 0).2.1⟩

/-! ## The average region -/

theorem sizes_foldl (rs : List Region) (prop : Region → ℚ) (acc : List ℚ) :
    rs.foldl (fun sizes r => sizes ++ [prop r]) acc = acc ++ rs.map prop := by
  induction rs generalizing acc with
  | nil => simp
  | cons r rs ih => rw [List.foldl_cons, ih]; simp

theorem ceil_half_odd (k : Nat) :
    (Int.ceil (((2 * k + 1 : Nat) : ℚ) * (1 / 2))).toNat = k + 1 := by
  have h : Int.ceil (((2 * k + 1 : Nat) : ℚ) * (1 / 2)) = (k : Int) + 1 := by
    rw [Int.ceil_eq_iff]
    push_cast
    constructor <;> linarith
  rw [h]
  omega

theorem statMoment_odd (values : List ℚ) (h : values.length % 2 = 1) :
    Math.statMoment values (1 / 2) =
      (values.insertionSort (fun a b => a ≤ b)).getD (values.length / 2) 0 := by
  obtain ⟨k, hk⟩ : ∃ k, values.length = 2 * k + 1 := ⟨values.length / 2, by omega⟩
  unfold Math.statMoment
  simp only [List.length_insertionSort]
  rw [hk, ceil_half_odd k]
  have h1 : ¬ (2 * k + 1 = 0) := by omega
  have h2 : ¬ ((2 * k + 1) % 2 = 0 ∧ k + 1 < 2 * k + 1) := by omega
  have h3 : k + 1 - 1 = (2 * k + 1) / 2 := by omega
  rw [if_neg h1, if_neg h2, h3]

theorem averageRegion_eq (p : PageData) (prop : Region → ℚ) :
    p.averageRegion prop = Math.statMoment (p.regions.map prop) (1 / 2) := by
  unfold PageData.averageRegion
  simp only [sizes_foldl, List.nil_append]

/-- C16: on a page with an odd number of regions `averageRegion(prop)` is the middle
element of the sorted values `prop(r)`, the median: one region gives `prop` of that
region, and regions valued 1, 2, 3, 4, 5 in any order give 3. -/
theorem averageRegion_median (p : PageData) (prop : Region → ℚ)
    (h : p.numRegions % 2 = 1) :
    p.averageRegion prop =
      ((p.regions.map prop).insertionSort (fun a b => a ≤ b)).getD (p.numRegions / 2) 0 ∧
    ((p.regions.map prop).insertionSort (fun a b => a ≤ b)).Sorted (fun a b => a ≤ b) ∧
    List.Perm ((p.regions.map prop).insertionSort (fun a b => a ≤ b)) (p.regions.map prop) ∧
    (∀ r, p.regions = [r] → p.averageRegion prop = prop r) ∧
    (List.Perm (p.regions.map prop) [1, 2, 3, 4, 5] → p.averageRegion prop = 3) := by
  have hlen : (p.regions.map prop).length = p.numRegions := List.length_map _ _
  have hmain : p.averageRegion prop =
      ((p.regions.map prop).insertionSort (fun a b => a ≤ b)).getD (p.numRegions / 2) 0 := by
    rw [averageRegion_eq, statMoment_odd _ (by rw [hlen]; exact h), hlen]
  refine ⟨hmain, List.sorted_insertionSort _ _, List.perm_insertionSort _ _, ?_, ?_⟩
  · intro r hr
    rw [averageRegion_eq, hr]
    rw [statMoment_odd _ (by rfl)]
    simp [List.insertionSort, List.orderedInsert]
  · intro hperm
    have hsort : (p.regions.map prop).insertionSort (fun a b => a ≤ b) = [1, 2, 3, 4, 5] := by
      apply List.eq_of_perm_of_sorted ((List.perm_insertionSort _ _).trans hperm)
        (List.sorted_insertionSort _ _)
      simp only [List.Sorted, List.pairwise_cons]
      norm_num
    have hn : p.numRegions = 5 := by
      rw [← hlen, hperm.length_eq]; rfl
    rw [hmain, hsort, hn]
    rfl

/-- C16 at a page whose regions have the widths 3, 1, 5, 2, 4, with the width as the
property: the result is 3. -/
theorem averageRegion_median_witness :
    (PageData.ofWidths [3, 1, 5, 2, 4]).numRegions % 2 = 1 ∧
    (PageData.ofWidths [3, 1, 5, 2, 4]).averageRegion (fun r => (r.width : ℚ)) = 3 :=
  ⟨by decide,
    (averageRegion_median (PageData.ofWidths [3, 1, 5, 2, 4]) (fun r => (r.width : ℚ))
      (by decide)).2.2.2.2 (by decide)⟩

/-! ## The summary and the timer -/

theorem numRegions_of_no_pages (c : Collection) (h : c.numPages = 0) : c.numRegions = 0 := by
  have h1 : c.pages.length = 0 := by
    rw [pages_eq_flatten, length_flatten_pages, ← numPages_eq_sum]; exact h
  have h2 : c.pages = [] := List.length_eq_zero.1 h1
  unfold Collection.numRegions
  rw [h2]
  rfl

/-- C22: `Collection::toString` divides without a guard.  The summary is always the four
lines, the third one holding the rendering of `(double)numRegions / numPages`; with
`numPages() == 0` the divisor is 0 (and so is the numerator: the quotient is not a
number), with `numPages() > 0` the divisor is not 0 and the quotient is the number
`numRegions / numPages`. -/
theorem collection_toString_division (numberDouble : DoubleQuotient → QString)
    (c : Collection) :
    c.toString numberDouble = List.intercalate ['\n']
      [QString.number c.numPages ++ " pages found in ".toList
          ++ QString.number c.numDocuments ++ " documents".toList,
       QString.number c.numDocuments ++ " documents".toList,
       QString.number c.numRegions ++ " regions (".toList
          ++ numberDouble (divDouble c.numRegions c.numPages) ++ " per page)".toList,
       QString.number c.numTextPages ++ " pages with text".toList] ∧
    (c.numPages = 0 → ((c.numPages : Nat) : Int) = 0 ∧ c.numRegions = 0 ∧
      divDouble c.numRegions c.numPages = DoubleQuotient.nan) ∧
    (0 < c.numPages → ((c.numPages : Nat) : Int) ≠ 0 ∧
      divDouble c.numRegions c.numPages =
        DoubleQuotient.finite ((c.numRegions : ℚ) / (c.numPages : ℚ))) ∧
    ((c.documents = [] ∨ ∀ d ∈ c.documents, d.pages = []) → c.numPages = 0) := by
  refine ⟨?_, ?_, ?_, ?_⟩
  · unfold Collection.toString
    simp [List.intercalate, List.append_assoc]
  · intro h
    have h1 := numRegions_of_no_pages c h
    refine ⟨by rw [h]; rfl, h1, ?_⟩
    rw [h, h1]
    rfl
  · intro h
    have h1 : ((c.numPages : Nat) : Int) ≠ 0 := by
      intro h2
      have h3 : c.numPages = 0 := by exact_mod_cast h2
      omega
    refine ⟨h1, ?_⟩
    unfold divDouble
    rw [if_neg h1]
    simp
  · intro h
    rw [numPages_eq_sum]
    apply List.sum_eq_zero
    intro n hn
    obtain ⟨d, hd, rfl⟩ := List.mem_map.1 hn
    rcases h with h | h
    · have h2 : c.mDocuments = [] := h
      rw [h2] at hd
      cases hd
    · have h2 : d.mPages = [] := h d hd
      show d.mPages.length = 0
      rw [h2]
      rfl

/-- C23: on 1500 ms `Timer::stringifyTime` returns "2.500 sec", which is not the
"1.500 sec" of an interval of 1500 ms: the seconds are `qRound(ct / 1000.0)`, the
milliseconds `ct % 1000`.  Just below the half second the result is exact (1499 gives
"1.499 sec"), and below one second it is "<ct> ms" (999 gives "999 ms"). -/
theorem timer_stringifyTime_rounds_up :
    Timer.stringifyTime 1500 = "2.500 sec".toList ∧
    Timer.stringifyTime 1500 ≠ "1.500 sec".toList ∧
    Timer.stringifyTime 1499 = "1.499 sec".toList ∧
    Timer.stringifyTime 999 = "999 ms".toList := by
  decide

/-! ## The dictionaries after a distance computation -/

theorem dictionary_snd_eq (d : Document) :
    d.dictionary.2 = { d with mDictionary := d.dictionary.1 } := by
  unfold Document.dictionary
  by_cases h : QMap.isEmpty d.mDictionary = true
  · simp [h, Document.createDictionary]
  · simp [h]

theorem entries_ne_zero_builtDictionary (pages : List PageData) :
    ∀ e ∈ Document.builtDictionary pages, e.2 ≠ 0 := by
  intro e he
  have h1 := QMap.value_of_mem _ (nodup_keys_builtDictionary pages) e he
  have h2 : e.1 ∈ QMap.keys (Document.builtDictionary pages) :=
    List.mem_map_of_mem Prod.fst he
  rw [mem_keys_builtDictionary] at h2
  rw [value_builtDictionary] at h1
  omega

theorem distance_after_distance (σ : Heap) (a b x y : Nat) :
    (Document.dictionaryDistance (Document.dictionaryDistance σ a b).2 x y).1 =
      (Document.dictionaryDistance σ x y).1 := by
  have hd : ∀ q, ((Document.dictionaryDistance σ a b).2 q).dictionary = (σ q).dictionary := by
    intro q
    rw [dictionaryDistance_snd]
    by_cases h : q = a ∨ q = b
    · rw [if_pos h, dictionary_idem]
    · rw [if_neg h]
  rw [dictionaryDistance_fst, dictionaryDistance_fst, hd x, hd y]

/-- C24: `a.dictionaryDistance(b)` leaves in both documents the dictionary built from
their own pages: every entry has the word's occurrence count, none has the count 0, and
no word of `a` that `b` lacks is entered into the cache of `b`.  Pages, name, colour and
selected flag of both, and every other document, are unchanged; a later `dictionary()`
or `dictionaryDistance` call returns what it would have returned without the call. -/
theorem dictionaryDistance_no_pollution (σ : Heap) (a b : Nat)
    (ha : (σ a).Inv) (hb : (σ b).Inv) :
    ((Document.dictionaryDistance σ a b).2 b).mDictionary =
        Document.builtDictionary (σ b).mPages ∧
    ((Document.dictionaryDistance σ a b).2 a).mDictionary =
        Document.builtDictionary (σ a).mPages ∧
    (∀ w, QMap.value ((Document.dictionaryDistance σ a b).2 b).mDictionary w =
        (specWordCount (σ b).mPages w : Int)) ∧
    (∀ w, QMap.value ((Document.dictionaryDistance σ a b).2 a).mDictionary w =
        (specWordCount (σ a).mPages w : Int)) ∧
    (∀ e ∈ ((Document.dictionaryDistance σ a b).2 b).mDictionary, e.2 ≠ 0) ∧
    (∀ w, w ∈ QMap.keys ((Document.dictionaryDistance σ a b).2 b).mDictionary →
        0 < specWordCount (σ b).mPages w) ∧
    (∀ q, ((Document.dictionaryDistance σ a b).2 q).mPages = (σ q).mPages ∧
      ((Document.dictionaryDistance σ a b).2 q).mName = (σ q).mName ∧
      ((Document.dictionaryDistance σ a b).2 q).mColor = (σ q).mColor ∧
      ((Document.dictionaryDistance σ a b).2 q).mSelected = (σ q).mSelected) ∧
    (∀ q, q ≠ a → q ≠ b → (Document.dictionaryDistance σ a b).2 q = σ q) ∧
    (∀ q, ((Document.dictionaryDistance σ a b).2 q).dictionary.1 = (σ q).dictionary.1) ∧
    (∀ x y, (Document.dictionaryDistance (Document.dictionaryDistance σ a b).2 x y).1 =
      (Document.dictionaryDistance σ x y).1) := by
  have hat : ∀ q, (q = a ∨ q = b) → (σ q).Inv →
      ((Document.dictionaryDistance σ a b).2 q).mDictionary =
        Document.builtDictionary (σ q).mPages := by
    intro q hq hinv
    rw [dictionaryDistance_snd, if_pos hq, dictionary_snd_mDictionary]
    exact dictionary_fst_of_inv _ hinv
  have hB := hat b (Or.inr rfl) hb
  have hA := hat a (Or.inl rfl) ha
  refine ⟨hB, hA, ?_, ?_, ?_, ?_, ?_, ?_, ?_, distance_after_distance σ a b⟩
  · intro w; rw [hB]; exact value_builtDictionary _ w
  · intro w; rw [hA]; exact value_builtDictionary _ w
  · rw [hB]; exact entries_ne_zero_builtDictionary _
  · intro w hw
    rw [hB] at hw
    exact (mem_keys_builtDictionary _ w).1 hw
  · intro q
    rw [dictionaryDistance_snd]
    by_cases h : q = a ∨ q = b
    · rw [if_pos h, dictionary_snd_eq]
      exact ⟨rfl, rfl, rfl, rfl⟩
    · rw [if_neg h]
      exact ⟨rfl, rfl, rfl, rfl⟩
  · intro q h1 h2
    rw [dictionaryDistance_snd, if_neg (by simp [h1, h2])]
  · intro q
    rw [dictionaryDistance_snd]
    by_cases h : q = a ∨ q = b
    · rw [if_pos h, dictionary_idem]
    · rw [if_neg h]

/-- C24 at the documents "a b" (receiver) and "a" (argument): the cache of the argument
is a:1, without an entry for "b". -/
theorem dictionaryDistance_no_pollution_witness :
    (exampleHeap 0).Inv ∧ (exampleHeap 1).Inv ∧
    ((Document.dictionaryDistance exampleHeap 0 1).2 1).mDictionary = [("a".toList, 1)] ∧
    ((Document.dictionaryDistance exampleHeap 0 1).2 1).mDictionary =
      Document.builtDictionary (exampleHeap 1).mPages :=
  ⟨Or.inl rfl, Or.inl rfl, by decide,
    (dictionaryDistance_no_pollution exampleHeap 0 1 (Or.inl rfl) (Or.inl rfl)).1⟩

/-! ## Numbers as text -/

theorem digitChar_facts : ∀ d, d < 10 →
    (Nat.digitChar d).isDigit = true ∧ (Nat.digitChar d).toNat - 48 = d ∧
    QChar.isSpace (Nat.digitChar d) = false ∧ Nat.digitChar d ≠ '-' ∧
    Nat.digitChar d ≠ '+' ∧ Nat.digitChar d ≠ ',' ∧ Nat.digitChar d ≠ ' ' := by
  decide

theorem decimalDigits_chars (fuel n : Nat) :
    ∀ c ∈ decimalDigits fuel n, IsDigitChar c := by
  induction fuel generalizing n with
  | zero => intro c hc; cases hc
  | succ fuel ih =>
    intro c hc
    unfold decimalDigits at hc
    split at hc
    · rename_i h
      rw [List.mem_singleton] at hc
      exact ⟨n, h, hc⟩
    · rcases List.mem_append.1 hc with h1 | h1
      · exact ih _ c h1
      · rw [List.mem_singleton] at h1
        exact ⟨n % 10, Nat.mod_lt _ (by norm_num), h1⟩

theorem decimalDigits_ne_nil (fuel n : Nat) : decimalDigits (fuel + 1) n ≠ [] := by
  unfold decimalDigits
  split
  · simp
  · simp

theorem parseDecimal_append (xs : List Char) (c : Char) (acc : Nat) :
    parseDecimal (xs ++ [c]) acc =
      (parseDecimal xs acc).bind
        (fun v => if c.isDigit then some (v * 10 + (c.toNat - 48)) else none) := by
  induction xs generalizing acc with
  | nil => simp [parseDecimal]
  | cons x xs ih =>
    simp only [List.cons_append, parseDecimal]
    split
    · exact ih _
    · rfl

theorem parseDecimal_decimalDigits (fuel n : Nat) (h : n < fuel) :
    parseDecimal (decimalDigits fuel n) 0 = some n := by
  induction fuel generalizing n with
  | zero => omega
  | succ fuel ih =>
    unfold decimalDigits
    split
    · rename_i h1
      obtain ⟨hd, hv, _⟩ := digitChar_facts n h1
      simp [parseDecimal, hd, hv]
    · rename_i h1
      obtain ⟨hd, hv, _⟩ := digitChar_facts (n % 10) (Nat.mod_lt _ (by norm_num))
      rw [parseDecimal_append, ih (n / 10) (by omega)]
      simp only [Option.some_bind, hd, if_true, hv]
      congr 1
      omega

theorem trimmed_eq_self (s : QString) (h : ∀ c ∈ s, QChar.isSpace c = false) :
    QString.trimmed s = s := by
  have hdrop : ∀ t : QString, (∀ c ∈ t, QChar.isSpace c = false) →
      t.dropWhile QChar.isSpace = t := by
    intro t ht
    cases t with
    | nil => rfl
    | cons c cs =>
      rw [List.dropWhile_cons_of_neg]
      rw [ht c (List.mem_cons_self _ _)]
      exact Bool.false_ne_true
  unfold QString.trimmed
  rw [hdrop s h, hdrop s.reverse (fun c hc => h c (List.mem_reverse.1 hc)), List.reverse_reverse]

theorem number_chars (n : Int) :
    ∀ c ∈ QString.number n, c = '-' ∨ IsDigitChar c := by
  intro c hc
  unfold QString.number at hc
  split at hc
  · rcases List.mem_cons.1 hc with h | h
    · exact Or.inl h
    · exact Or.inr (decimalDigits_chars _ _ c h)
  · exact Or.inr (decimalDigits_chars _ _ c hc)

theorem number_not_space (n : Int) : ∀ c ∈ QString.number n, QChar.isSpace c = false := by
  intro c hc
  rcases number_chars n c hc with h | ⟨d, hd, h⟩
  · rw [h]; decide
  · rw [h]; exact (digitChar_facts d hd).2.2.1

theorem number_no_blank (n : Int) : ' ' ∉ QString.number n := by
  intro hc
  rcases number_chars n ' ' hc with h | ⟨d, hd, h⟩
  · exact absurd h (by decide)
  · exact (digitChar_facts d hd).2.2.2.2.2.2 h.symm

theorem number_no_comma (n : Int) : ',' ∉ QString.number n := by
  intro hc
  rcases number_chars n ',' hc with h | ⟨d, hd, h⟩
  · exact absurd h (by decide)
  · exact (digitChar_facts d hd).2.2.2.2.2.1 h.symm

theorem toInt_number (n : Int) (h1 : -2147483648 ≤ n) (h2 : n ≤ 2147483647) :
    QString.toInt (QString.number n) = some n := by
  unfold QString.toInt
  rw [trimmed_eq_self _ (number_not_space n)]
  by_cases hn : n < 0
  · have hnum : QString.number n = '-' :: decimalDigits (n.natAbs + 1) n.natAbs := by
      unfold QString.number; rw [if_pos hn]
    rw [hnum]
    have hne := decimalDigits_ne_nil n.natAbs n.natAbs
    have hp := parseDecimal_decimalDigits (n.natAbs + 1) n.natAbs (by omega)
    have hemp : (decimalDigits (n.natAbs + 1) n.natAbs).isEmpty = false := by
      cases hds : decimalDigits (n.natAbs + 1) n.natAbs with
      | nil => exact absurd hds hne
      | cons _ _ => rfl
    simp only [List.head?_cons, beq_self_eq_true, Bool.true_or, if_true, List.tail_cons, hemp,
      Bool.false_eq_true, if_false, hp]
    have hv : -((n.natAbs : Nat) : Int) = n := by omega
    rw [hv, if_pos ⟨h1, h2⟩]
  · have hnum : QString.number n = decimalDigits (n.natAbs + 1) n.natAbs := by
      unfold QString.number; rw [if_neg hn]
    rw [hnum]
    have hne := decimalDigits_ne_nil n.natAbs n.natAbs
    have hp := parseDecimal_decimalDigits (n.natAbs + 1) n.natAbs (by omega)
    cases hds : decimalDigits (n.natAbs + 1) n.natAbs with
    | nil => exact absurd hds hne
    | cons c cs =>
      rw [hds] at hp
      obtain ⟨d, hd, hc⟩ := decimalDigits_chars (n.natAbs + 1) n.natAbs c
        (by rw [hds]; exact List.mem_cons_self _ _)
      have hc1 : c ≠ '-' := by rw [hc]; exact (digitChar_facts d hd).2.2.2.1
      have hc2 : c ≠ '+' := by rw [hc]; exact (digitChar_facts d hd).2.2.2.2.1
      have hb1 : (some c == some '-') = false := by simpa using hc1
      have hb2 : (some c == some '+') = false := by simpa using hc2
      simp only [List.head?_cons, hb1, hb2, Bool.or_self, Bool.false_eq_true, if_false,
        List.isEmpty_cons, hp]
      have hv : ((n.natAbs : Nat) : Int) = n := by omega
      rw [hv, if_pos ⟨h1, h2⟩]

/-! ## Polygons as text -/

theorem polyText_foldl (polygon : QPolygon) (acc : QString) :
    polygon.foldl
      (fun polyStr p =>
        polyStr ++ (QString.number p.xp ++ [','] ++ QString.number p.yp ++ [' '])) acc =
      acc ++ (polygon.map (fun p => specPointText p ++ [' '])).flatten := by
  induction polygon generalizing acc with
  | nil => simp
  | cons p ps ih =>
    rw [List.foldl_cons, ih]
    simp [specPointText]

theorem flatten_eq_intercalate (x : QString) (xs : List QString) :
    ((x :: xs).map (fun t => t ++ [' '])).flatten =
      List.intercalate [' '] (x :: xs) ++ [' '] := by
  induction xs generalizing x with
  | nil => simp [List.intercalate]
  | cons y ys ih =>
    have h := ih y
    simp only [List.map_cons, List.flatten_cons] at h ⊢
    rw [h]
    simp [List.intercalate]

theorem remove_last (t : QString) :
    QString.remove (t ++ [' ']) (((t ++ [' ']).length : Int) - 1) 1 = t := by
  unfold QString.remove
  have hlen : ((t ++ [' ']).length : Int) = (t.length : Int) + 1 := by simp
  rw [hlen]
  have h1 : ¬ ((t.length : Int) + 1 - 1 < 0) := by omega
  rw [if_neg h1]
  have h2 : ¬ ((t.length : Int) + 1 - 1 < 0 ∨ (t.length : Int) + 1 ≤ (t.length : Int) + 1 - 1) := by
    omega
  rw [if_neg h2]
  have h3 : (t.length : Int) + 1 - ((t.length : Int) + 1 - 1) ≤ 1 := by omega
  rw [if_pos h3]
  have h4 : ((t.length : Int) + 1 - 1).toNat = t.length := by omega
  rw [h4]
  simp

theorem polyToString_eq (polygon : QPolygon) :
    Converter.polyToString polygon =
      List.intercalate [' '] (polygon.map specPointText) := by
  unfold Converter.polyToString
  simp only [polyText_foldl, List.nil_append]
  cases polygon with
  | nil => decide
  | cons p ps =>
    have h : ((p :: ps).map (fun q => specPointText q ++ [' '])).flatten =
        List.intercalate [' '] ((p :: ps).map specPointText) ++ [' '] := by
      have h1 := flatten_eq_intercalate (specPointText p) (ps.map specPointText)
      simpa [List.map_map, Function.comp] using h1
    rw [h]
    exact remove_last _

theorem pointText_no_blank (p : QPoint) : ' ' ∉ specPointText p := by
  unfold specPointText
  intro h
  rcases List.mem_append.1 h with h1 | h1
  · rcases List.mem_append.1 h1 with h2 | h2
    · exact number_no_blank _ h2
    · rw [List.mem_singleton] at h2
      exact absurd h2 (by decide)
  · exact number_no_blank _ h1

theorem split_pointText (p : QPoint) :
    QString.split (specPointText p) ',' = [QString.number p.xp, QString.number p.yp] := by
  have h : List.splitOn ','
      (List.intercalate [','] [QString.number p.xp, QString.number p.yp]) =
      [QString.number p.xp, QString.number p.yp] :=
    List.splitOn_intercalate [QString.number p.xp, QString.number p.yp] ','
    (by
      intro l hl
      rcases List.mem_cons.1 hl with h1 | h1
      · rw [h1]; exact number_no_comma _
      · rw [List.mem_singleton] at h1
        rw [h1]; exact number_no_comma _)
    (by simp)
  have h2 : List.intercalate [','] [QString.number p.xp, QString.number p.yp] =
      specPointText p := by
    simp [List.intercalate, specPointText]
  rw [h2] at h
  exact h

theorem stringToPolyStep_pointText (poly : QPolygon) (p : QPoint)
    (hx : FitsInt32 p.xp) (hy : FitsInt32 p.yp) :
    stringToPolyStep poly (specPointText p) = poly ++ [p] := by
  unfold stringToPolyStep
  simp only [split_pointText]
  have h1 : QString.toInt (QString.number p.xp) = some p.xp := toInt_number _ hx.1 hx.2
  have h2 : QString.toInt (QString.number p.yp) = some p.yp := toInt_number _ hy.1 hy.2
  simp [h1, h2]

theorem stringToPoly_foldl (polygon acc : QPolygon)
    (h : ∀ p ∈ polygon, FitsInt32 p.xp ∧ FitsInt32 p.yp) :
    (polygon.map specPointText).foldl stringToPolyStep acc = acc ++ polygon := by
  induction polygon generalizing acc with
  | nil => simp
  | cons p ps ih =>
    have hp := h p (List.mem_cons_self _ _)
    rw [List.map_cons, List.foldl_cons, stringToPolyStep_pointText acc p hp.1 hp.2,
      ih _ (fun q hq => h q (List.mem_cons_of_mem _ hq))]
    simp

theorem split_polyText (polygon : QPolygon) (hne : polygon ≠ []) :
    QString.split (List.intercalate [' '] (polygon.map specPointText)) ' ' =
      polygon.map specPointText := by
  unfold QString.split
  exact List.splitOn_intercalate (polygon.map specPointText) ' '
    (by
      intro l hl
      obtain ⟨q, _, rfl⟩ := List.mem_map.1 hl
      exact pointText_no_blank q)
    (by simpa using hne)

/-- C21: for every polygon whose coordinates are `int` values, the empty polygon
included, `stringToPoly(polyToString(p))` is `p`; `polyToString` writes the points as
"x,y", separated by single blanks, without a blank at the end: cut at its blanks, the
text of a non-empty polygon gives exactly the point texts, none of which holds a blank. -/
theorem poly_roundtrip (polygon : QPolygon)
    (h : ∀ p ∈ polygon, FitsInt32 p.xp ∧ FitsInt32 p.yp) :
    Converter.stringToPoly (Converter.polyToString polygon) = polygon ∧
    Converter.polyToString polygon = List.intercalate [' '] (polygon.map specPointText) ∧
    (polygon ≠ [] →
      QString.split (Converter.polyToString polygon) ' ' = polygon.map specPointText) ∧
    (∀ p : QPoint, ' ' ∉ specPointText p) := by
  have hs := polyToString_eq polygon
  refine ⟨?_, hs, ?_, pointText_no_blank⟩
  · rw [hs]
    cases polygon with
    | nil => decide
    | cons p ps =>
      unfold Converter.stringToPoly
      simp only [split_polyText (p :: ps) (by simp)]
      rw [stringToPoly_foldl (p :: ps) [] h, List.nil_append]
  · intro hne
    rw [hs]
    exact split_polyText polygon hne

/-- C21 at a polygon with negative and extreme coordinates, and at the empty polygon. -/
theorem poly_roundtrip_witness :
    (∀ p ∈ ([{ xp := 1077, yp := 482 }, { xp := -5, yp := 0 },
        { xp := -2147483648, yp := 2147483647 }] : QPolygon),
      FitsInt32 p.xp ∧ FitsInt32 p.yp) ∧
    Converter.polyToString [{ xp := 1077, yp := 482 }, { xp := -5, yp := 0 },
        { xp := -2147483648, yp := 2147483647 }] =
      "1077,482 -5,0 -2147483648,2147483647".toList ∧
    Converter.stringToPoly (Converter.polyToString [{ xp := 1077, yp := 482 },
        { xp := -5, yp := 0 }, { xp := -2147483648, yp := 2147483647 }]) =
      [{ xp := 1077, yp := 482 }, { xp := -5, yp := 0 },
        { xp := -2147483648, yp := 2147483647 }] ∧
    Converter.stringToPoly (Converter.polyToString []) = [] :=
  ⟨by decide, by decide,
    (poly_roundtrip [{ xp := 1077, yp := 482 }, { xp := -5, yp := 0 },
        { xp := -2147483648, yp := 2147483647 }] (by decide)).1,
    (poly_roundtrip [] (by simp)).1⟩

/-! ## The upper bound of the score -/

theorem sumOverWords_cast (a : QMap) (h : (QMap.keys a).Nodup) (f : QString → Int) :
    ((sumOverWords a f : Int) : ℝ) = ∑ w ∈ (QMap.keys a).toFinset, (f w : ℝ) := by
  unfold sumOverWords
  rw [← List.sum_toFinset f h, Int.cast_sum]

theorem cauchy_schwarz_words (a : QMap) (h : (QMap.keys a).Nodup) (f g : QString → Int) :
    ((sumOverWords a (fun w => f w * g w) : Int) : ℝ) ≤
      Real.sqrt ((sumOverWords a (fun w => f w * f w) : Int) : ℝ) *
        Real.sqrt ((sumOverWords a (fun w => g w * g w) : Int) : ℝ) := by
  rw [sumOverWords_cast a h, sumOverWords_cast a h, sumOverWords_cast a h]
  have hcs := Real.sum_mul_le_sqrt_mul_sqrt (QMap.keys a).toFinset
    (fun w => (f w : ℝ)) (fun w => (g w : ℝ))
  simp only [pow_two] at hcs
  simpa [Int.cast_mul] using hcs

theorem quotient_bounds (sab a b : ℝ) (ha : 0 < a) (hb : 0 ≤ b) (hab : sab ≤ a * b) :
    sab / (a + b) < a ∧ sab / (a + b) ≤ a * b / (a + b) := by
  have hpos : 0 < a + b := by linarith
  refine ⟨?_, div_le_div_of_nonneg_right hab (le_of_lt hpos)⟩
  rw [div_lt_iff₀ hpos]
  nlinarith

set_option maxRecDepth 100000 in
theorem float_distance_triple :
    (Document.dictionaryDistanceFloat tripleHeap 0 0).1 = { mant := 12582912, exp := -23 } := by
  decide

/-- C25, amended: for two documents with non-empty dictionaries the exact value of the
quotient `sumAB / (sqrt sumASq + sqrt sumBSq)`, which `dictionaryDistance` evaluates in
`float`, is strictly below `sqrt sumASq`, the Euclidean norm of the receiver's count
vector, and at most `sqrt sumASq * sqrt sumBSq / (sqrt sumASq + sqrt sumBSq)`.  The score
is not bounded by 1: the document whose only word occurs 3 times has the distance 3/2 to
itself, as the exact value and as the returned `float`. -/
theorem dictionaryDistance_upper_bound (σ : Heap) (this doc : Nat)
    (hthis : (σ this).Inv)
    (hA : (σ this).dictionary.1 ≠ []) (hB : (σ doc).dictionary.1 ≠ []) :
    (∀ x, Score.Denotes (Document.dictionaryDistance σ this doc).1 x →
      x < Real.sqrt ((sumOverWords (σ this).dictionary.1 (fun w =>
          QMap.value (σ this).dictionary.1 w * QMap.value (σ this).dictionary.1 w) : Int) : ℝ) ∧
      x ≤ Real.sqrt ((sumOverWords (σ this).dictionary.1 (fun w =>
          QMap.value (σ this).dictionary.1 w * QMap.value (σ this).dictionary.1 w) : Int) : ℝ) *
          Real.sqrt ((sumOverWords (σ this).dictionary.1 (fun w =>
          QMap.value (σ doc).dictionary.1 w * QMap.value (σ doc).dictionary.1 w) : Int) : ℝ) /
        (Real.sqrt ((sumOverWords (σ this).dictionary.1 (fun w =>
          QMap.value (σ this).dictionary.1 w * QMap.value (σ this).dictionary.1 w) : Int) : ℝ) +
          Real.sqrt ((sumOverWords (σ this).dictionary.1 (fun w =>
          QMap.value (σ doc).dictionary.1 w * QMap.value (σ doc).dictionary.1 w) : Int) : ℝ))) ∧
    (∃ x, Score.Denotes (Document.dictionaryDistance σ this doc).1 x) ∧
    (Score.Denotes (Document.dictionaryDistance tripleHeap 0 0).1 (3 / 2) ∧
      ¬ ((3 / 2 : ℝ) ≤ 1) ∧
      FloatValue.Denotes (Document.dictionaryDistanceFloat tripleHeap 0 0).1 (3 / 2)) := by
  have hq := distance_quotient_of_inv σ this doc hthis hA hB
  have hnd := nodup_keys_of_inv (σ this) hthis
  have hcs := cauchy_schwarz_words (σ this).dictionary.1 hnd
    (fun w => QMap.value (σ this).dictionary.1 w) (fun w => QMap.value (σ doc).dictionary.1 w)
  have hS : 0 < sumOverWords (σ this).dictionary.1 (fun w =>
      QMap.value (σ this).dictionary.1 w * QMap.value (σ this).dictionary.1 w) := by
    have h2 := sumSq_pos _ hA (entries_pos_of_inv (σ this) hthis)
    rw [sum_entries_eq _ hnd (fun _ a => a * a)] at h2
    exact h2
  have ha : 0 < Real.sqrt ((sumOverWords (σ this).dictionary.1 (fun w =>
      QMap.value (σ this).dictionary.1 w * QMap.value (σ this).dictionary.1 w) : Int) : ℝ) :=
    Real.sqrt_pos.2 (by exact_mod_cast hS)
  have hb := Real.sqrt_nonneg ((sumOverWords (σ this).dictionary.1 (fun w =>
      QMap.value (σ doc).dictionary.1 w * QMap.value (σ doc).dictionary.1 w) : Int) : ℝ)
  refine ⟨?_, ?_, ?_, by norm_num, ?_⟩
  rotate_right
  · rw [float_distance_triple]
    simp only [FloatValue.Denotes]
    norm_num
  · intro x hx
    rw [hq] at hx
    simp only [Score.Denotes] at hx
    rw [hx]
    exact quotient_bounds _ _ _ ha hb hcs
  · rw [hq]
    exact ⟨_, rfl⟩
  · have h3 : (Document.dictionaryDistance tripleHeap 0 0).1 = Score.quotient 9 9 9 := by
      decide
    rw [h3]
    simp only [Score.Denotes]
    have h9 : Real.sqrt ((9 : Int) : ℝ) = 3 := by
      rw [show ((9 : Int) : ℝ) = (3 : ℝ) ^ 2 by norm_num]
      exact Real.sqrt_sq (by norm_num)
    rw [h9]
    norm_num

/-- C25, amended, at the documents "a b" and "a": the exact value 1 / (sqrt 2 + sqrt 1)
exists and is below the bounds. -/
theorem dictionaryDistance_upper_bound_witness :
    (exampleHeap 0).Inv ∧ (exampleHeap 1).Inv ∧
    (exampleHeap 0).dictionary.1 ≠ [] ∧ (exampleHeap 1).dictionary.1 ≠ [] ∧
    (∃ x, Score.Denotes (Document.dictionaryDistance exampleHeap 0 1).1 x) :=
  ⟨Or.inl rfl, Or.inl rfl, by decide, by decide,
    (dictionaryDistance_upper_bound exampleHeap 0 1 (Or.inl rfl)
      (by decide) (by decide)).2.1⟩

/-! ## The order of the keys -/

theorem char_toNat_inj (x y : Char) (h : x.toNat = y.toNat) : x = y := by
  rw [← Char.ofNat_toNat x, ← Char.ofNat_toNat y, h]

theorem QString.lt_irrefl (a : QString) : QString.lt a a = false := by
  induction a with
  | nil => rfl
  | cons x xs ih => simp [QString.lt, ih]

theorem QString.lt_asymm (a b : QString) (h : QString.lt a b = true) :
    QString.lt b a = false := by
  induction a generalizing b with
  | nil =>
    cases b with
    | nil => rfl
    | cons y ys => rfl
  | cons x xs ih =>
    cases b with
    | nil => simp [QString.lt] at h
    | cons y ys =>
      simp only [QString.lt] at h ⊢
      by_cases h1 : x.toNat < y.toNat
      · have h2 : ¬ y.toNat < x.toNat := by omega
        simp [h1, h2]
      · by_cases h2 : y.toNat < x.toNat
        · simp [h1, h2] at h
        · simp only [h1, h2, if_false] at h ⊢
          exact ih ys h

theorem QString.lt_trans (a b c : QString) (h1 : QString.lt a b = true)
    (h2 : QString.lt b c = true) : QString.lt a c = true := by
  induction a generalizing b c with
  | nil =>
    cases b with
    | nil => simp [QString.lt] at h1
    | cons y ys =>
      cases c with
      | nil => simp [QString.lt] at h2
      | cons z zs => rfl
  | cons x xs ih =>
    cases b with
    | nil => simp [QString.lt] at h1
    | cons y ys =>
      cases c with
      | nil => simp [QString.lt] at h2
      | cons z zs =>
        simp only [QString.lt] at h1 h2 ⊢
        by_cases hxy : x.toNat < y.toNat
        · by_cases hyz : y.toNat < z.toNat
          · have : x.toNat < z.toNat := by omega
            simp [this]
          · by_cases hzy : z.toNat < y.toNat
            · simp [hyz, hzy] at h2
            · have : x.toNat < z.toNat := by omega
              simp [this]
        · by_cases hyx : y.toNat < x.toNat
          · simp [hxy, hyx] at h1
          · simp only [hxy, hyx, if_false] at h1
            by_cases hyz : y.toNat < z.toNat
            · have : x.toNat < z.toNat := by omega
              simp [this]
            · by_cases hzy : z.toNat < y.toNat
              · simp [hyz, hzy] at h2
              · simp only [hyz, hzy, if_false] at h2
                have e1 : ¬ x.toNat < z.toNat := by omega
                have e2 : ¬ z.toNat < x.toNat := by omega
                simp only [e1, e2, if_false]
                exact ih ys zs h1 h2

theorem QString.lt_total (a b : QString) (hne : a ≠ b) (h : QString.lt a b = false) :
    QString.lt b a = true := by
  induction a generalizing b with
  | nil =>
    cases b with
    | nil => exact absurd rfl hne
    | cons y ys => simp [QString.lt] at h
  | cons x xs ih =>
    cases b with
    | nil => rfl
    | cons y ys =>
      simp only [QString.lt] at h ⊢
      by_cases h1 : x.toNat < y.toNat
      · simp [h1] at h
      · by_cases h2 : y.toNat < x.toNat
        · simp [h2]
        · simp only [h1, h2, if_false] at h ⊢
          have hxy : x = y := char_toNat_inj x y (by omega)
          subst hxy
          have hne2 : xs ≠ ys := fun e => hne (by rw [e])
          exact ih ys hne2 h

/-! ## Dictionaries are determined by the tokens -/

theorem sorted_insertNode (k : QString) (v : Int) (m : QMap) (hs : QMap.SortedKeys m)
    (hk : k ∉ QMap.keys m) : QMap.SortedKeys (QMap.insertNode k v m) := by
  induction m with
  | nil => simp [QMap.insertNode, QMap.SortedKeys, QMap.keys]
  | cons e rest ih =>
    have hs2 : List.Pairwise (fun a b => QString.lt a b = true) (e.1 :: QMap.keys rest) := hs
    rw [List.pairwise_cons] at hs2
    have hk2 : k ≠ e.1 ∧ k ∉ QMap.keys rest := by
      simpa [QMap.keys, not_or] using hk
    unfold QMap.insertNode
    by_cases hlt : QString.lt k e.1 = true
    · rw [if_pos hlt]
      show List.Pairwise _ (k :: e.1 :: QMap.keys rest)
      rw [List.pairwise_cons]
      refine ⟨?_, List.pairwise_cons.2 hs2⟩
      intro b hb
      rcases List.mem_cons.1 hb with h1 | h1
      · rw [h1]; exact hlt
      · exact QString.lt_trans _ _ _ hlt (hs2.1 b h1)
    · rw [if_neg hlt]
      show List.Pairwise _ (e.1 :: QMap.keys (QMap.insertNode k v rest))
      rw [List.pairwise_cons]
      refine ⟨?_, ih hs2.2 hk2.2⟩
      intro b hb
      rw [(QMap.keys_insertNode_perm k v rest).mem_iff] at hb
      rcases List.mem_cons.1 hb with h1 | h1
      · rw [h1]
        exact QString.lt_total k e.1 hk2.1 (by simpa using hlt)
      · exact hs2.1 b h1

theorem sorted_increment (m : QMap) (k : QString) (hs : QMap.SortedKeys m) :
    QMap.SortedKeys (QMap.increment m k) := by
  unfold QMap.increment QMap.SortedKeys
  simp only [QMap.keys_assign]
  unfold QMap.index
  by_cases h : QMap.contains m k = true
  · rw [if_pos h]; exact hs
  · rw [if_neg h]
    exact sorted_insertNode k 0 m hs (fun hk => h ((QMap.contains_iff m k).2 hk))

theorem sorted_countWords (m : QMap) (ws : List QString) (hs : QMap.SortedKeys m) :
    QMap.SortedKeys (countWords m ws) := by
  unfold countWords
  induction ws generalizing m with
  | nil => exact hs
  | cons w ws ih =>
    rw [List.foldl_cons]
    exact ih _ (sorted_increment m w hs)

theorem nodup_of_sortedKeys (m : QMap) (hs : QMap.SortedKeys m) : (QMap.keys m).Nodup := by
  unfold QMap.SortedKeys at hs
  refine List.Pairwise.imp ?_ hs
  intro a b hab heq
  rw [heq, QString.lt_irrefl] at hab
  cases hab

theorem entries_of_keys (m : QMap) (h : (QMap.keys m).Nodup) :
    m = (QMap.keys m).map (fun k => (k, QMap.value m k)) := by
  unfold QMap.keys
  rw [List.map_map]
  conv_lhs => rw [← List.map_id m]
  apply List.map_congr_left
  intro e he
  simp only [id, Function.comp_apply]
  rw [QMap.value_of_mem m h e he]

theorem QMap.ext_of_sorted (m1 m2 : QMap) (h1 : QMap.SortedKeys m1)
    (h2 : QMap.SortedKeys m2) (hk : ∀ k, k ∈ QMap.keys m1 ↔ k ∈ QMap.keys m2)
    (hv : ∀ k, QMap.value m1 k = QMap.value m2 k) : m1 = m2 := by
  have n1 := nodup_of_sortedKeys m1 h1
  have n2 := nodup_of_sortedKeys m2 h2
  have hperm : List.Perm (QMap.keys m1) (QMap.keys m2) :=
    (List.perm_ext_iff_of_nodup n1 n2).2 hk
  haveI : IsAntisymm QString (fun a b => QString.lt a b = true) :=
    ⟨fun a b hab hba => by
      rw [QString.lt_asymm a b hab] at hba
      cases hba⟩
  have hkeys : QMap.keys m1 = QMap.keys m2 := List.eq_of_perm_of_sorted hperm h1 h2
  rw [entries_of_keys m1 n1, entries_of_keys m2 n2, hkeys]
  apply List.map_congr_left
  intro k _
  rw [hv k]

theorem countWords_perm (ws1 ws2 : List QString) (h : List.Perm ws1 ws2) :
    countWords [] ws1 = countWords [] ws2 := by
  apply QMap.ext_of_sorted
  · exact sorted_countWords [] ws1 List.Pairwise.nil
  · exact sorted_countWords [] ws2 List.Pairwise.nil
  · intro k
    rw [mem_keys_countWords, mem_keys_countWords, h.mem_iff]
  · intro k
    rw [value_countWords, value_countWords]
    congr 2
    exact h.countP_eq _

theorem splitAux_append_blank (t rest cur : QString) :
    splitAux (t ++ ' ' :: rest) cur = splitAux (t ++ [' ']) cur ++ splitAux rest [] := by
  have hsp : QChar.isSpace ' ' = true := by decide
  induction t generalizing cur with
  | nil =>
    cases cur with
    | nil => simp [splitAux, hsp]
    | cons c cs => simp [splitAux, hsp]
  | cons c cs ih =>
    rw [List.cons_append, List.cons_append]
    simp only [splitAux]
    rw [ih [], ih (c :: cur)]
    by_cases hc : QChar.isSpace c = true
    · cases cur with
      | nil => simp [hc]
      | cons a as => simp [hc]
    · simp [hc]

theorem splitWords_append_blank (t rest : QString) :
    QString.splitWords (t ++ [' '] ++ rest) =
      QString.splitWords t ++ QString.splitWords rest := by
  unfold QString.splitWords
  rw [List.append_assoc, List.singleton_append, splitAux_append_blank,
    splitAux_append_space]

theorem splitWords_allText_flatten (pages : List PageData) :
    QString.splitWords (Document.allText pages) =
      (pages.map (fun p => QString.splitWords p.text)).flatten := by
  induction pages with
  | nil => rfl
  | cons p ps ih =>
    rw [allText_cons, splitWords_append_blank, ih]
    rfl

theorem builtDictionary_perm (ps qs : List PageData) (h : List.Perm ps qs) :
    Document.builtDictionary ps = Document.builtDictionary qs := by
  unfold Document.builtDictionary
  rw [splitWords_allText_flatten, splitWords_allText_flatten]
  exact countWords_perm _ _ ((h.map _).flatten)

theorem builtDictionary_merged (ps qs : List PageData) (h : MergedPages ps qs) :
    Document.builtDictionary ps = Document.builtDictionary qs := by
  obtain ⟨front, back, p1, p2, m, h1, h2, hm⟩ := h
  unfold Document.builtDictionary
  rw [splitWords_allText_flatten, splitWords_allText_flatten, h1, h2]
  simp only [List.map_append, List.map_cons, List.map_nil, List.flatten_append,
    List.flatten_cons, List.flatten_nil, List.append_nil]
  rw [hm, splitWords_append_blank]

/-- C26: the dictionary depends on the tokens only.  When the pages of `e` are a
permutation of the pages of `d`, or are the pages of `d` with two adjacent pages merged
into one whose text is the two texts joined by a blank, `dictionary()` returns the same
map for both, and so `dictionaryDistance` returns the same score with `d` or `e` as the
receiver and with `d` or `e` as the argument, against every other document. -/
theorem dictionary_layout_independent (d e : Document) (hd : d.Inv) (he : e.Inv)
    (hlayout : List.Perm d.mPages e.mPages ∨ MergedPages d.mPages e.mPages) :
    d.dictionary.1 = e.dictionary.1 ∧
    (∀ (σ τ : Heap) (p q : Nat), σ p = d → τ p = e → σ q = τ q →
      (Document.dictionaryDistance σ p q).1 = (Document.dictionaryDistance τ p q).1 ∧
      (Document.dictionaryDistance σ q p).1 = (Document.dictionaryDistance τ q p).1) := by
  have hdict : d.dictionary.1 = e.dictionary.1 := by
    rw [dictionary_fst_of_inv d hd, dictionary_fst_of_inv e he]
    rcases hlayout with h | h
    · exact builtDictionary_perm _ _ h
    · exact builtDictionary_merged _ _ h
  refine ⟨hdict, ?_⟩
  intro σ τ p q hp hq hpq
  rw [dictionaryDistance_fst, dictionaryDistance_fst, dictionaryDistance_fst,
    dictionaryDistance_fst, hp, hq, hpq, hdict]
  exact ⟨rfl, rfl⟩

/-- C26 at the pages "b a", "c" against "c", "b a" (a permutation) and against the
single page "b a c" (a merge). -/
theorem dictionary_layout_independent_witness :
    (Document.ofTexts ["b a", "c"]).Inv ∧ (Document.ofTexts ["c", "b a"]).Inv ∧
    (Document.ofTexts ["b a c"]).Inv ∧
    List.Perm (Document.ofTexts ["b a", "c"]).mPages (Document.ofTexts ["c", "b a"]).mPages ∧
    MergedPages (Document.ofTexts ["b a", "c"]).mPages (Document.ofTexts ["b a c"]).mPages ∧
    (Document.ofTexts ["b a", "c"]).dictionary.1 =
      (Document.ofTexts ["c", "b a"]).dictionary.1 ∧
    (Document.ofTexts ["b a", "c"]).dictionary.1 =
      (Document.ofTexts ["b a c"]).dictionary.1 ∧
    (Document.ofTexts ["b a", "c"]).dictionary.1 =
      [("a".toList, 1), ("b".toList, 1), ("c".toList, 1)] :=
  ⟨Or.inl rfl, Or.inl rfl, Or.inl rfl, List.Perm.swap _ _ _,
    ⟨[], [], PageData.ofText "b a", PageData.ofText "c", PageData.ofText "b a c",
      rfl, rfl, rfl⟩,
    (dictionary_layout_independent _ _ (Or.inl rfl) (Or.inl rfl)
      (Or.inl (List.Perm.swap _ _ _))).1,
    (dictionary_layout_independent _ _ (Or.inl rfl) (Or.inl rfl)
      (Or.inr ⟨[], [], PageData.ofText "b a", PageData.ofText "c", PageData.ofText "b a c",
        rfl, rfl, rfl⟩)).1,
    by decide⟩

/-! ## The returned `float` against the bounds -/

theorem splitWords_manyWords (n : Nat) :
    QString.splitWords (manyWords n) = List.replicate n ['w'] := by
  induction n with
  | zero => rfl
  | succ n ih =>
    have h : manyWords (n + 1) = ['w'] ++ [' '] ++ manyWords n := by
      simp [manyWords, List.replicate_succ]
    rw [h, splitWords_append_blank, ih, List.replicate_succ]
    rfl

theorem countWords_replicate (w : QString) (n : Nat) (hn : 0 < n) :
    countWords [] (List.replicate n w) = [(w, (n : Int))] := by
  apply QMap.ext_of_sorted
  · exact sorted_countWords [] _ List.Pairwise.nil
  · simp [QMap.SortedKeys, QMap.keys]
  · intro k
    rw [mem_keys_countWords]
    simp only [QMap.keys, List.map_nil, List.not_mem_nil, false_or, List.mem_replicate,
      List.map_cons, List.mem_singleton]
    constructor
    · exact fun h => h.2
    · exact fun h => ⟨by omega, h⟩
  · intro k
    rw [value_countWords]
    by_cases h : w = k
    · subst h
      simp [QMap.value, List.count_replicate_self]
    · have h1 : List.count k (List.replicate n w) = 0 := by
        rw [List.count_eq_zero]
        intro hm
        exact h (List.eq_of_mem_replicate hm).symm
      simp [QMap.value, h, h1]

theorem dictionaryDistanceFloat_snd (σ : Heap) (this doc : Nat) :
    (Document.dictionaryDistanceFloat σ this doc).2 = (Document.dictionaryDistance σ this doc).2 := by
  unfold Document.dictionaryDistanceFloat Document.dictionaryDistance
  simp only
  rw [ite_pair_snd, ite_pair_snd]

theorem allText_single (p : PageData) : Document.allText [p] = p.text ++ [' '] := by
  rw [allText_cons]
  simp [Document.allText]

theorem inv_bigDocument : bigDocument.Inv := by
  right
  show [("w".toList, (16777216 : Int))] = Document.builtDictionary bigDocument.mPages
  unfold Document.builtDictionary
  have h : Document.allText bigDocument.mPages = manyWords 16777216 ++ [' '] :=
    allText_single _
  rw [h]
  have h2 : QString.splitWords (manyWords 16777216 ++ [' ']) =
      List.replicate 16777216 ['w'] := by
    rw [← splitWords_manyWords]
    exact splitAux_append_space _ _
  rw [h2, countWords_replicate ['w'] 16777216 (by norm_num)]
  rfl

set_option maxRecDepth 100000 in
theorem float_distance_aba :
    (Document.dictionaryDistanceFloat abaHeap 0 0).1 = { mant := 9378749, exp := -23 } := by
  decide

set_option maxRecDepth 100000 in
theorem float_distance_big :
    (Document.dictionaryDistanceFloat bigHeap 0 1).1 = { mant := 8388608, exp := -23 } := by
  decide

set_option maxRecDepth 100000 in
theorem float_distance_examples :
    (Document.dictionaryDistanceFloat exampleHeap 0 1).1 = { mant := 13898700, exp := -25 } ∧
    (Document.dictionaryDistanceFloat exampleHeap 1 0).1 = { mant := 8388608, exp := -24 } ∧
    (Document.dictionaryDistanceFloat exampleHeap 0 0).1 = { mant := 11863283, exp := -24 } ∧
    (Document.dictionaryDistanceFloat disjointHeap 0 1).1.mant = 0 ∧
    (Document.dictionaryDistanceFloat blankHeap 0 1).1 = { mant := -1, exp := 0 } := by
  decide

/-- C25, as stated, fails for the returned `float`.  For the document "a b a" against
itself the sums are 5, 5, 5 and the code returns 9378749 / 2^23 = 1.11803400..., above
the bound `sqrt 5 * sqrt 5 / (sqrt 5 + sqrt 5)`.  For the document "w" against the
document of 16777216 times "w" the sums are 2^24, 1, 2^48, the divisor 1 + 2^24 is
rounded to the `float` 2^24, and the code returns 1, which is not below `sqrt 1`. -/
theorem dictionaryDistance_float_exceeds_bound :
    ((abaHeap 0).Inv ∧ (abaHeap 0).dictionary.1 ≠ [] ∧
      (Document.dictionaryDistance abaHeap 0 0).1 = Score.quotient 5 5 5 ∧
      (Document.dictionaryDistanceFloat abaHeap 0 0).1 = { mant := 9378749, exp := -23 } ∧
      FloatValue.Denotes (Document.dictionaryDistanceFloat abaHeap 0 0).1
        (9378749 / 8388608) ∧
      ¬ ((9378749 / 8388608 : ℝ) ≤
        Real.sqrt 5 * Real.sqrt 5 / (Real.sqrt 5 + Real.sqrt 5))) ∧
    ((bigHeap 0).Inv ∧ (bigHeap 1).Inv ∧
      (bigHeap 0).dictionary.1 ≠ [] ∧ (bigHeap 1).dictionary.1 ≠ [] ∧
      (Document.dictionaryDistance bigHeap 0 1).1 =
        Score.quotient 16777216 1 281474976710656 ∧
      (Document.dictionaryDistanceFloat bigHeap 0 1).1 = { mant := 8388608, exp := -23 } ∧
      FloatValue.Denotes (Document.dictionaryDistanceFloat bigHeap 0 1).1 1 ∧
      ¬ ((1 : ℝ) < Real.sqrt 1)) := by
  refine ⟨⟨Or.inl rfl, by decide, by decide, float_distance_aba, ?_, ?_⟩,
    ⟨Or.inl rfl, inv_bigDocument, by decide, by decide, by decide, float_distance_big,
      ?_, ?_⟩⟩
  · rw [float_distance_aba]
    simp only [FloatValue.Denotes]
    norm_num
  · have h5 : (20971520 / 9378749 : ℝ) < Real.sqrt 5 := by
      rw [Real.lt_sqrt (by norm_num)]
      norm_num
    have hpos : (0 : ℝ) < Real.sqrt 5 := Real.sqrt_pos.2 (by norm_num)
    have hmul : Real.sqrt 5 * Real.sqrt 5 = 5 := Real.mul_self_sqrt (by norm_num)
    rw [not_le, hmul, div_lt_iff₀ (by linarith)]
    nlinarith
  · rw [float_distance_big]
    simp only [FloatValue.Denotes]
    norm_num
  · rw [Real.sqrt_one]
    norm_num

end pie
